import Mathlib

/-!
# Verification of `scripts/aggregate_logs.py`

A shallow embedding of the log-aggregation script in Lean 4.

Modelling conventions:
* Python `str` values are modelled as `List Char` (`Str` below), so that
  slicing (`[:16]`), `split(',')`, `strip()`, `lower()` and substring tests
  can be given exact, executable definitions.
* Python `dict` / `defaultdict` values are modelled as association lists
  (`Dict α := List (Str × α)`) that preserve insertion order, with
  `dget` (read with default) and `dupd` (get-or-create-then-update), which
  together reproduce `defaultdict` semantics exactly.
* Python's unbounded `int` is modelled as `Int`.
* A JSON summary file is either unreadable/invalid (`none`) or a parsed
  `Summary` record holding the fields the script reads, with the `.get`
  defaults already applied.
* The filesystem side effects of one run are captured by `Dir` (the JSON
  files plus the three output artifacts living in the directory) and a run
  is a pure function `Dir → Dir` together with a success flag and the list
  of per-file warnings printed to stderr.
-/

set_option maxRecDepth 4000

abbrev Str := List Char

/-- The characters `str.strip()` (and `int()`) strip: Python's Unicode
whitespace — `\t\n\v\f\r`, `\x1c`–`\x1f`, space, NEL, NBSP, and the Unicode
space separators and line/paragraph separators. -/
def pyWS (c : Char) : Bool :=
  (9 ≤ c.toNat && c.toNat ≤ 13) || (28 ≤ c.toNat && c.toNat ≤ 32) ||
  c.toNat = 133 || c.toNat = 160 || c.toNat = 5760 ||
  (8192 ≤ c.toNat && c.toNat ≤ 8202) || c.toNat = 8232 || c.toNat = 8233 ||
  c.toNat = 8239 || c.toNat = 8287 || c.toNat = 12288

/-- Python `str.strip()`: drop whitespace from both ends. -/
def pyStrip (s : Str) : Str :=
  ((s.dropWhile pyWS).reverse.dropWhile pyWS).reverse

/-- Python `str.split(',')`. -/
def splitComma : Str → List Str
  | [] => [[]]
  | c :: rest =>
    let r := splitComma rest
    if c = ',' then [] :: r
    else (c :: r.headD []) :: r.tail

/-- Join written lines into the file's character stream: each `f.write` in
`write_csv` emits its payload followed by `'\n'`. -/
def joinNL (lines : List Str) : Str :=
  lines.foldr (fun line acc => line ++ '\n' :: acc) []

/-- Text-mode reading applies universal newlines: `'\x0d\n'` and a lone
`'\x0d'` are translated to `'\n'`. -/
def normNL : Str → Str
  | [] => []
  | [c] => if c = '\x0d' then ['\n'] else [c]
  | c :: d :: rest =>
    if c = '\x0d' then
      if d = '\n' then '\n' :: normNL rest
      else '\n' :: normNL (d :: rest)
    else c :: normNL (d :: rest)

/-- Split the translated stream at `'\n'`, keeping every segment. -/
def splitNL : Str → List Str
  | [] => [[]]
  | c :: rest =>
    let r := splitNL rest
    if c = '\n' then [] :: r
    else (c :: r.headD []) :: r.tail

/-- The physical lines `for line in f` iterates over: universal-newline
translation, split at `'\n'`; a trailing newline yields no empty final
line, and an empty file yields no lines. -/
def physLines (text : Str) : List Str :=
  let segs := splitNL (normNL text)
  if segs.getLast? = some [] then segs.dropLast else segs

/-- Does `pat` occur at the start of `hay`? (helper for substring tests). -/
def leadsWith : Str → Str → Bool
  | _, [] => true
  | [], _ :: _ => false
  | h :: hs, p :: ps => h = p && leadsWith hs ps

/-- Python `pat in hay` substring containment. -/
def containsStr (pat : Str) : Str → Bool
  | [] => leadsWith [] pat
  | c :: t => leadsWith (c :: t) pat || containsStr pat t

/-- Python string `<` (lexicographic by code point). -/
def strLt : Str → Str → Bool
  | [], [] => false
  | [], _ :: _ => true
  | _ :: _, [] => false
  | a :: as, b :: bs => if a.toNat < b.toNat then true else if a = b then strLt as bs else false

/-- Insert into a `≤`-sorted list of strings (used to model Python `sorted`). -/
def insStr (x : Str) : List Str → List Str
  | [] => [x]
  | y :: ys => if strLt x y then x :: y :: ys else y :: insStr x ys

/-- Python `sorted` on a list of strings (stable; strings are distinct in all uses). -/
def sortStr (l : List Str) : List Str :=
  l.foldr insStr []

/-- Python `min` over a nonempty collection of strings (`[]` for the empty case,
which the script never hits because it is guarded by `if by_minute:`). -/
def pyMinStr : List Str → Str
  | [] => []
  | x :: xs => xs.foldl (fun a b => if strLt b a then b else a) x

/-- Python `max` over a nonempty collection of strings. -/
def pyMaxStr : List Str → Str
  | [] => []
  | x :: xs => xs.foldl (fun a b => if strLt a b then b else a) x

/-- Python `str.lower()` (ASCII behaviour, which covers the fixed keyword list). -/
def lowerStr (s : Str) : Str :=
  s.map Char.toLower

/-- Python `s.replace('|', '\\|')` used to escape markdown table cells. -/
def escapePipes (s : Str) : Str :=
  s.flatMap fun c => if c = '|' then ['\\', '|'] else [c]

/-! ## Decimal integers: `str(int)` and `int(str)` -/

def digitChar (n : Nat) : Char := Char.ofNat (48 + n)

/-- Decimal digits of `n`, most significant first (fuel-driven so it reduces). -/
def natCharsGo : Nat → Nat → Str → Str
  | 0, _, acc => acc
  | fuel + 1, n, acc =>
    if n < 10 then digitChar n :: acc
    else natCharsGo fuel (n / 10) (digitChar (n % 10) :: acc)

def natChars (n : Nat) : Str := natCharsGo (n + 1) n []

/-- Python `str` of an `int` (as interpolated into the CSV f-string). -/
def intChars : Int → Str
  | Int.ofNat n => natChars n
  | Int.negSucc n => '-' :: natChars (n + 1)

/-- Value of a digit character. -/
def charVal (c : Char) : Nat := c.toNat - 48

def isDigitCh (c : Char) : Bool := 48 ≤ c.toNat && c.toNat ≤ 57

/-- Value of a digit string read left to right. -/
def digitsVal (l : Str) : Nat :=
  l.foldl (fun a c => 10 * a + charVal c) 0

/-- Python `int(str)`: optional surrounding whitespace, optional sign, then a
nonempty run of decimal digits; anything else raises (`none`). -/
def pyInt (s : Str) : Option Int :=
  match pyStrip s with
  | [] => none
  | c :: rest =>
    if c = '-' then
      if rest ≠ [] && rest.all isDigitCh then some (-(digitsVal rest : Int)) else none
    else if c = '+' then
      if rest ≠ [] && rest.all isDigitCh then some ((digitsVal rest : Int)) else none
    else if (c :: rest).all isDigitCh then some ((digitsVal (c :: rest) : Int)) else none

/-! ## Dicts (insertion-ordered association lists) -/

abbrev Dict (α : Type) := List (Str × α)

/-- `d.get(k, dflt)` / `d[k]` read with default. -/
def dget {α : Type} (dflt : α) (k : Str) : Dict α → α
  | [] => dflt
  | (k', v) :: rest => if k' = k then v else dget dflt k rest

/-- `defaultdict` write access `d[k] = f(d[k])`: update in place if the key is
present, otherwise append a fresh entry `(k, f dflt)` (dicts preserve
insertion order, so fresh keys go to the end). -/
def dupd {α : Type} (dflt : α) (k : Str) (f : α → α) : Dict α → Dict α
  | [] => [(k, f dflt)]
  | (k', v) :: rest => if k' = k then (k', f v) :: rest else (k', v) :: dupd dflt k f rest

/-- Python `set.add` on a list used as a set (no-op when already present). -/
def sadd (x : Str) (l : List Str) : List Str :=
  if x ∈ l then l else l ++ [x]

/-- Deduplicate keeping first occurrences (`set(...)` before sorting). -/
def dedupStr : List Str → List Str
  | [] => []
  | x :: xs => if x ∈ xs then dedupStr xs else x :: dedupStr xs

/-! ## Data model -/

/-- One value of the `by_minute` defaultdict: the aggregate for one minute. -/
structure Bucket where
  samples : Int
  total_lines : Int
  failed_to_parse : Int
  level_counts : Dict Int
  message_counts : Dict Int
  deriving DecidableEq, Repr

def emptyBucket : Bucket := ⟨0, 0, 0, [], []⟩

/-- The four level names the CSV persists. -/
def infoK : Str := "info".toList

def warnK : Str := "warn".toList

def errorK : Str := "error".toList

def debugK : Str := "debug".toList

abbrev ByMinute := Dict Bucket

/-- A successfully parsed JSON summary file, with the script's `.get` defaults
(`meta.get('total_lines', 0)` etc.) already applied.  `level_counts` maps a
timestamp to per-level counts; `message_counts` maps a timestamp to the list
of `{message, count}` records in file order. -/
structure Summary where
  total_lines : Int
  failed_to_parse : Int
  level_counts : Dict (Dict Int)
  message_counts : Dict (List (Str × Int))
  deriving DecidableEq, Repr

/-- A JSON file in the directory: its name and `some` parsed summary, or
`none` when opening/`json.load` raises. -/
abbrev LogFile := Str × Option Summary

/-- Contents of `.aggregate_state.json`. -/
structure StateF where
  processed_files : List Str
  last_update : Option Str
  deriving DecidableEq, Repr

/-- One row of the report's "Log Levels by Minute" table. -/
structure RepRow where
  minute : Str
  samples : Int
  total_lines : Int
  info : Int
  warn : Int
  err : Int
  debug : Int
  deriving DecidableEq, Repr

/-- The data `write_summary` renders into `summary.md`.  The markdown text is
a fixed injective rendering of this record (the derived "parse success rate"
is a function of `totalFailed` and `totalLines`), so byte-identity of the
report file is equivalent to equality of this record. -/
structure Report where
  generated : Str
  newFiles : Nat
  timeRange : Option (Str × Str)
  totalSamples : Int
  totalLines : Int
  totalFailed : Int
  lastRows : List RepRow
  topMessages : List (Int × Str)
  criticalSections : List (Str × List (Int × Str))
  deriving DecidableEq, Repr

/-- The directory as the run sees it: the files `glob("*.json")` returns
plus the three artifacts.  Pathlib's glob does match the dotted state file,
so after an incremental run the listing includes `.aggregate_state.json`;
its JSON body parses, and since it has none of the fields the readers use,
its parsed `Summary` view is the all-defaults summary (see `stateLog`).
`csv` is the file as its physical lines (see `write_csv`); `none` means
the file does not exist.  A missing-or-corrupt state file is `none`
(`load_state` treats both alike). -/
structure Dir where
  files : List LogFile
  csv : Option (List Str)
  report : Option Report
  state : Option StateF
  deriving DecidableEq, Repr

/-! ## Embedding of `aggregate_logs.py` -/

/-- `load_state`: missing or unreadable state file yields the empty state. -/
def load_state : Option StateF → StateF
  | none => ⟨[], none⟩
  | some st => st

/-- Sort the glob results by path; paths share the directory prefix, so this
is name order (stable, and filenames are distinct in a directory). -/
def insFile (x : LogFile) : List LogFile → List LogFile
  | [] => [x]
  | y :: ys => if strLt x.1 y.1 then x :: y :: ys else y :: insFile x ys

def sortFiles (l : List LogFile) : List LogFile :=
  l.foldr insFile []

/-- One CSV data row as written by `write_csv`'s f-string. -/
def csvRow (k : Str) (b : Bucket) : Str :=
  k ++ [','] ++ intChars b.samples ++ [','] ++ intChars b.total_lines ++ [','] ++
    intChars (dget 0 infoK b.level_counts) ++ [','] ++
    intChars (dget 0 warnK b.level_counts) ++ [','] ++
    intChars (dget 0 errorK b.level_counts) ++ [','] ++
    intChars (dget 0 debugK b.level_counts)

def csvHeader : Str := "timestamp,samples,total_lines,info,warn,error,debug".toList

/-- The sequence of `f.write` payloads of `write_csv` (without the trailing
`'\n'` each write appends): header, then one row per minute key in sorted
order. -/
def csvLines (tbl : ByMinute) : List Str :=
  csvHeader :: (sortStr (tbl.map (·.1))).map (fun k => csvRow k (dget emptyBucket k tbl))

/-- `write_csv`: the file on disk, as the physical lines a text-mode reader
sees.  Each write appends its row followed by `'\n'`, so a minute key that
itself holds a newline or carriage return splits its row across physical
lines. -/
def write_csv (tbl : ByMinute) : List Str :=
  physLines (joinNL (csvLines tbl))

/-- The six assignments of one CSV row in `load_existing_data`, in statement
order.  Python evaluates `int(parts[i])` before touching `by_minute`; a
raised `ValueError` aborts the load but every assignment already executed
stays in the dict, so the returned table carries the partial row and the
`false` flag signals the abort. -/
def loadCsvRow (parts : List Str) (tbl : ByMinute) : ByMinute × Bool :=
  let ts := parts.getD 0 []
  match pyInt (parts.getD 1 []) with
  | none => (tbl, false)
  | some v1 =>
    let tbl := dupd emptyBucket ts (fun b => { b with samples := v1 }) tbl
    match pyInt (parts.getD 2 []) with
    | none => (tbl, false)
    | some v2 =>
      let tbl := dupd emptyBucket ts (fun b => { b with total_lines := v2 }) tbl
      match pyInt (parts.getD 3 []) with
      | none => (tbl, false)
      | some v3 =>
        let tbl := dupd emptyBucket ts
          (fun b => { b with level_counts := dupd 0 infoK (fun _ => v3) b.level_counts }) tbl
        match pyInt (parts.getD 4 []) with
        | none => (tbl, false)
        | some v4 =>
          let tbl := dupd emptyBucket ts
            (fun b => { b with level_counts := dupd 0 warnK (fun _ => v4) b.level_counts }) tbl
          match pyInt (parts.getD 5 []) with
          | none => (tbl, false)
          | some v5 =>
            let tbl := dupd emptyBucket ts
              (fun b => { b with level_counts := dupd 0 errorK (fun _ => v5) b.level_counts }) tbl
            match pyInt (parts.getD 6 []) with
            | none => (tbl, false)
            | some v6 =>
              (dupd emptyBucket ts
                (fun b => { b with level_counts := dupd 0 debugK (fun _ => v6) b.level_counts }) tbl,
                true)

/-- The `for line in f` loop of `load_existing_data`: rows with fewer than 7
comma-separated parts are skipped; the first `int()` failure aborts the rest
of the file (the surrounding `try` returns the table built so far, including
the failing row's earlier assignments). -/
def loadCsvLines : List Str → ByMinute → ByMinute
  | [], tbl => tbl
  | line :: rest, tbl =>
    let parts := splitComma (pyStrip line)
    if parts.length ≥ 7 then
      match loadCsvRow parts tbl with
      | (tbl', false) => tbl'
      | (tbl', true) => loadCsvLines rest tbl'
    else loadCsvLines rest tbl

/-- `load_existing_data`: `next(f)` skips the header (an empty file raises
`StopIteration`, caught to return the empty table). -/
def load_existing_data : List Str → ByMinute
  | [] => []
  | _ :: rows => loadCsvLines rows []

/-! ### Pass 1: message totals over all files -/

/-- Fold the message counts of one file into `all_messages`, guarded by the
pass-1 condition `json_file.name in processed_set or json_file in new_files`
exactly as written in the source. -/
def pass1File (processed : List Str) (newFiles : List LogFile)
    (am : Dict Int) (f : LogFile) : Dict Int :=
  match f.2 with
  | none => am
  | some s =>
    s.message_counts.foldl (fun am1 tsMsgs =>
      tsMsgs.2.foldl (fun am2 p =>
        if f.1 ∈ processed ∨ f ∈ newFiles then dupd 0 p.1 (· + p.2) am2 else am2) am1) am

/-- First pass of `aggregate_logs`: all files, message counts only.  Returns
the global message table and the names of files whose read failed (the
`Warning: Could not extract messages` prints). -/
def pass1 (allFiles : List LogFile) (processed : List Str) (newFiles : List LogFile) :
    Dict Int × List Str :=
  allFiles.foldl (fun acc f =>
    match f.2 with
    | none => (acc.1, acc.2 ++ [f.1])
    | some _ => (pass1File processed newFiles acc.1 f, acc.2)) ([], [])

/-! ### Pass 2: level/line totals over new files -/

/-- Fold one `level_counts` entry `(timestamp, levels)` into `by_minute`. -/
def foldLevelEntry (s : Summary) (tbl : ByMinute) (e : Str × Dict Int) : ByMinute :=
  let mk := e.1.take 16
  let tbl := dupd emptyBucket mk (fun b => { b with samples := b.samples + 1 }) tbl
  let tbl := dupd emptyBucket mk (fun b => { b with total_lines := b.total_lines + s.total_lines }) tbl
  let tbl := dupd emptyBucket mk
    (fun b => { b with failed_to_parse := b.failed_to_parse + s.failed_to_parse }) tbl
  e.2.foldl (fun t p =>
    dupd emptyBucket mk (fun b => { b with level_counts := dupd 0 p.1 (· + p.2) b.level_counts }) t) tbl

/-- Fold one `message_counts` entry into the per-minute message dicts. -/
def foldMsgEntry (tbl : ByMinute) (e : Str × List (Str × Int)) : ByMinute :=
  let mk := e.1.take 16
  e.2.foldl (fun t p =>
    dupd emptyBucket mk (fun b => { b with message_counts := dupd 0 p.1 (· + p.2) b.message_counts }) t) tbl

/-- Running state of the second pass: the table, the processed-name set, the
success counter, and the names printed as `Error processing ...`. -/
structure Pass2St where
  tbl : ByMinute
  processed : List Str
  success : Nat
  warns : List Str
  deriving Repr

/-- Process one new file in the second pass of `aggregate_logs`. -/
def pass2File (st : Pass2St) (f : LogFile) : Pass2St :=
  match f.2 with
  | none => { st with warns := st.warns ++ [f.1] }
  | some s =>
    let tbl := s.level_counts.foldl (foldLevelEntry s) st.tbl
    let tbl := s.message_counts.foldl foldMsgEntry tbl
    { st with tbl := tbl, processed := sadd f.1 st.processed, success := st.success + 1 }

def pass2 (newFiles : List LogFile) (tbl : ByMinute) (processed : List Str) : Pass2St :=
  newFiles.foldl pass2File ⟨tbl, processed, 0, []⟩

/-! ### `write_summary` -/

def critical_keywords : List Str :=
  ["Emergency scale-down", "error", "failed", "panic", "crash", "timeout", "killed"].map
    String.toList

/-- Body of the inner loop building `critical_found`: on a case-insensitive
substring match, append `(msg, count)` to the keyword's list (creating the
keyword's entry on first match, as the `not in`/`append` pair does). -/
def critAdd (kw : Str) (acc : Dict (List (Str × Int))) (p : Str × Int) :
    Dict (List (Str × Int)) :=
  if containsStr (lowerStr kw) (lowerStr p.1) then dupd [] kw (fun l => l ++ [p]) acc
  else acc

/-- The double loop building `critical_found`: keyword → matching messages in
`all_messages` order (dict insertion order = first-match order of keywords). -/
def buildCriticalFound (am : Dict Int) : Dict (List (Str × Int)) :=
  critical_keywords.foldl (fun acc kw => am.foldl (critAdd kw) acc) []

/-- Stable insertion for descending sort by count (Python `sorted(...,
key=lambda x: x[1], reverse=True)`: equal counts keep list order). -/
def insDesc (x : Str × Int) : List (Str × Int) → List (Str × Int)
  | [] => [x]
  | y :: ys => if y.2 < x.2 then x :: y :: ys else y :: insDesc x ys

def sortDescByCount (l : List (Str × Int)) : List (Str × Int) :=
  l.foldl (fun acc x => insDesc x acc) []

/-- `write_summary`, as the `Report` record it renders. -/
def write_summary (now : Str) (tbl : ByMinute) (am : Dict Int) (newCount : Nat) : Report :=
  let keys := tbl.map (·.1)
  let sorted := sortStr keys
  { generated := now
    newFiles := newCount
    timeRange := if tbl = [] then none else some (pyMinStr keys, pyMaxStr keys)
    totalSamples := (tbl.map (·.2.samples)).sum
    totalLines := (tbl.map (·.2.total_lines)).sum
    totalFailed := (tbl.map (·.2.failed_to_parse)).sum
    lastRows := (sorted.drop (sorted.length - 20)).map (fun k =>
      let b := dget emptyBucket k tbl
      { minute := k, samples := b.samples, total_lines := b.total_lines
        info := dget 0 infoK b.level_counts
        warn := dget 0 warnK b.level_counts
        err := dget 0 errorK b.level_counts
        debug := dget 0 debugK b.level_counts })
    topMessages := ((sortDescByCount am).take 20).map (fun p => (p.2, escapePipes (p.1.take 70)))
    criticalSections := (buildCriticalFound am).map (fun kf =>
      (kf.1, ((sortDescByCount kf.2).take 5).map (fun p => (p.2, escapePipes (p.1.take 65))))) }

/-! ### `aggregate_logs` -/

/-- Outcome of one invocation: the boolean the function returns, the directory
afterwards, and the names of files whose per-file processing failed. -/
structure RunOut where
  ok : Bool
  dir : Dir
  warns : List Str
  deriving Repr

/-- The sorted glob plus the new-file partition. -/
def newFilesOf (files : List LogFile) (processed : List Str) : List LogFile :=
  (sortFiles files).filter (fun f => decide (f.1 ∉ processed))

/-- The starting `by_minute` table of a run. -/
def initialTable (d : Dir) (incremental : Bool) : ByMinute :=
  if incremental ∧ d.csv.isSome then load_existing_data (d.csv.getD []) else []

/-- `aggregate_logs(log_dir, incremental)`, for an existing directory.
`now` is the wall-clock time `datetime.now` would return during the run. -/
def aggregate_logs (d : Dir) (incremental : Bool) (now : Str) : RunOut :=
  let st := if incremental then load_state d.state else ⟨[], none⟩
  let processed := st.processed_files
  let allFiles := sortFiles d.files
  let newFiles := newFilesOf d.files processed
  if newFiles = [] then
    if incremental then ⟨true, d, []⟩ else ⟨false, d, []⟩
  else
    let p1 := pass1 allFiles processed newFiles
    let p2 := pass2 newFiles (initialTable d incremental) processed
    let rep := write_summary now p2.tbl p1.1 newFiles.length
    let state' : Option StateF :=
      if incremental then some ⟨sortStr (dedupStr p2.processed), some now⟩ else d.state
    ⟨true, { d with csv := some (write_csv p2.tbl), report := some rep, state := state' },
      p1.2 ++ p2.warns⟩

/-- The top of `aggregate_logs`: a missing directory prints an error and
returns `False` before anything else happens. -/
def aggregateLogsTop (d : Option Dir) (incremental : Bool) (now : Str) : RunOut :=
  match d with
  | none => ⟨false, ⟨[], none, none, none⟩, []⟩
  | some d => aggregate_logs d incremental now

/-- Input of one run in a sequence: the JSON files now present in the
directory, the mode, and the wall-clock time. -/
structure RunIn where
  files : List LogFile
  incremental : Bool
  now : Str

/-- Apply one run to the directory: external producers may have changed the
set of JSON files, the artifacts are whatever the previous run left. -/
def applyRun (d : Dir) (r : RunIn) : Dir :=
  (aggregate_logs { d with files := r.files } r.incremental r.now).dir

def applyRuns (d : Dir) : List RunIn → Dir
  | [] => d
  | r :: rs => applyRuns (applyRun d r) rs

/-- The set of filenames recorded in the state file (missing/corrupt = none). -/
def recordedSet (d : Dir) : List Str :=
  (load_state d.state).processed_files

/-! ## Derived notions used by the specification statements -/

/-- A minute key that survives the line-based comma-separated CSV format:
no comma (field separator), no newline or carriage return (line structure /
universal-newline translation), and no leading whitespace (stripped by the
reader).  Keys produced from well-formed ISO timestamps are all clean. -/
def CleanKey (k : Str) : Prop :=
  (',' ∉ k) ∧ ('\n' ∉ k) ∧ ('\x0d' ∉ k) ∧ k.dropWhile pyWS = k

instance (k : Str) : Decidable (CleanKey k) := by
  unfold CleanKey
  infer_instance

/-- The effect of loading one full CSV row `k,v1,...,v6`: the six assignments
of `load_existing_data` in order. -/
def rowUpdate (k : Str) (b : Bucket) (tbl : ByMinute) : ByMinute :=
  let tbl := dupd emptyBucket k (fun c => { c with samples := b.samples }) tbl
  let tbl := dupd emptyBucket k (fun c => { c with total_lines := b.total_lines }) tbl
  let tbl := dupd emptyBucket k (fun c =>
    { c with level_counts := dupd 0 infoK (fun _ => dget 0 infoK b.level_counts) c.level_counts }) tbl
  let tbl := dupd emptyBucket k (fun c =>
    { c with level_counts := dupd 0 warnK (fun _ => dget 0 warnK b.level_counts) c.level_counts }) tbl
  let tbl := dupd emptyBucket k (fun c =>
    { c with level_counts := dupd 0 errorK (fun _ => dget 0 errorK b.level_counts) c.level_counts }) tbl
  dupd emptyBucket k (fun c =>
    { c with level_counts := dupd 0 debugK (fun _ => dget 0 debugK b.level_counts) c.level_counts }) tbl

/-- Per-minute level lookup (`levels.get(lv, 0)`). -/
def pLvl (lv : Str) (b : Bucket) : Int :=
  dget 0 lv b.level_counts

/-- Number of `level_counts` entries of a summary whose timestamp truncates
to the given minute key. -/
def cntEntries (s : Summary) (key : Str) : Nat :=
  (s.level_counts.filter (fun e => e.1.take 16 = key)).length

/-- Total level count a summary contributes to level `lv` of minute `key`. -/
def cLevelS (s : Summary) (key lv : Str) : Int :=
  ((s.level_counts.filter (fun e => e.1.take 16 = key)).map
    (fun e => ((e.2.filter (fun p => p.1 = lv)).map (fun p => p.2)).sum)).sum

/-- Per-file contribution to `samples` of minute `key` (0 for unreadable). -/
def cSamples (f : LogFile) (key : Str) : Int :=
  match f.2 with
  | none => 0
  | some s => (cntEntries s key : Int)

def cTotal (f : LogFile) (key : Str) : Int :=
  match f.2 with
  | none => 0
  | some s => (cntEntries s key : Int) * s.total_lines

def cFailed (f : LogFile) (key : Str) : Int :=
  match f.2 with
  | none => 0
  | some s => (cntEntries s key : Int) * s.failed_to_parse

def cLvl (f : LogFile) (key lv : Str) : Int :=
  match f.2 with
  | none => 0
  | some s => cLevelS s key lv

/-- Per-file contribution to the global message table for message `m`. -/
def msgTotal (f : LogFile) (m : Str) : Int :=
  match f.2 with
  | none => 0
  | some s =>
    (s.message_counts.map (fun e => ((e.2.filter (fun p => p.1 = m)).map (fun p => p.2)).sum)).sum

/-- The CSV-persisted view of one minute of a table: `samples`,
`total_lines`, and the four standard level counts (the fields the claims
compare across runs). -/
def rowView (k : Str) (tbl : ByMinute) : RepRow :=
  { minute := k
    samples := (dget emptyBucket k tbl).samples
    total_lines := (dget emptyBucket k tbl).total_lines
    info := pLvl infoK (dget emptyBucket k tbl)
    warn := pLvl warnK (dget emptyBucket k tbl)
    err := pLvl errorK (dget emptyBucket k tbl)
    debug := pLvl debugK (dget emptyBucket k tbl) }

/-! ## Concrete inputs used in scenarios and counterexamples -/

/-- The spec's concrete scenario file `f1.json`. -/
def exF1 : LogFile :=
  ("f1.json".toList, some
    { total_lines := 100, failed_to_parse := 2
      level_counts := [("2025-11-05T07:50".toList, [(infoK, 5), (errorK, 1)])]
      message_counts := [("2025-11-05T07:50".toList, [("started job".toList, 5)])] })

/-- A well-formed second file for two-file scenarios. -/
def exB : LogFile :=
  ("f2.json".toList, some
    { total_lines := 40, failed_to_parse := 3
      level_counts := [("2025-11-05T07:50".toList, [(infoK, 4)])]
      message_counts := [("2025-11-05T07:50".toList, [("retry".toList, 2)])] })

/-- A file whose JSON does not parse. -/
def exBad : LogFile := ("bad.json".toList, none)

/-- A summary whose `level_counts` has two distinct timestamps inside the
same minute. -/
def exDupS : Summary :=
  { total_lines := 100, failed_to_parse := 0
    level_counts := [("2025-11-05T07:50:01".toList, [(infoK, 1)]),
                     ("2025-11-05T07:50:59".toList, [(infoK, 1)])]
    message_counts := [] }

def exDup : LogFile := ("dup.json".toList, some exDupS)

/-- A one-bucket table whose minute key contains a comma. -/
def exCommaTbl : ByMinute :=
  [("a,b".toList, { samples := 1, total_lines := 7, failed_to_parse := 0
                    level_counts := [], message_counts := [] })]

/-- Placeholder used as the default of `Option.getD` on reports. -/
def dummyReport : Report := write_summary [] [] [] 0

/-- The one-file directory of the spec's concrete scenario. -/
def exDir1 : Dir := ⟨[exF1], none, none, none⟩

/-- First run of the two-run incremental scenario: aggregate `{f1}`. -/
def c1run1 : RunOut := aggregate_logs exDir1 true "A".toList

/-- The state file as a later run's glob sees it: `Path.glob("*.json")`
matches the dotted name, its body is valid JSON, and it has none of
`meta`/`level_counts`/`message_counts`, so every `.get` defaults and its
`Summary` view is the all-defaults summary. -/
def stateLog : LogFile := (".aggregate_state.json".toList, some ⟨0, 0, [], []⟩)

/-- The same directory as the second run's glob sees it: `f2.json` has
appeared, and the listing also contains the state file run 1 wrote. -/
def c1dir2 : Dir := { c1run1.dir with files := [stateLog, exF1, exB] }

/-- Second run: aggregate `{f1, f2}` incrementally. -/
def c1run2 : RunOut := aggregate_logs c1dir2 true "B".toList

/-- One-shot run on `{f1, f2}` from empty state. -/
def c1single : RunOut := aggregate_logs ⟨[exF1, exB], none, none, none⟩ true "B".toList

/-- Run 1's directory as the second run really sees it: no producer has
added anything, but the glob now also matches the state file. -/
def c2dir2 : Dir := { c1run1.dir with files := [stateLog, exF1] }

/-- The real second incremental run on the `{f1}` directory. -/
def c2run2 : RunOut := aggregate_logs c2dir2 true "B".toList

/-- The directory before a third run: both names are now recorded, and the
state file's `Summary` view is unchanged (it still has none of the fields
the readers use). -/
def c2dir3 : Dir := { c2run2.dir with files := [stateLog, exF1] }

/-! ## Library lemmas: dicts -/

theorem dget_dupd {α : Type} (dflt : α) (k k' : Str) (f : α → α) (t : Dict α) :
    dget dflt k' (dupd dflt k f t) = if k = k' then f (dget dflt k' t) else dget dflt k' t := by
  induction t with
  | nil =>
    by_cases h : k = k' <;> simp [dget, dupd, h]
  | cons e rest ih =>
    obtain ⟨k₀, v⟩ := e
    by_cases h0 : k₀ = k
    · subst h0
      by_cases h1 : k₀ = k' <;> simp [dget, dupd, h1]
    · by_cases h1 : k₀ = k'
      · subst h1
        have hkk : ¬ k = k₀ := fun h => h0 h.symm
        simp [dget, dupd, h0, hkk]
      · simp [dget, dupd, h0, h1, ih]

theorem dget_dupd_same {α : Type} (dflt : α) (k : Str) (f : α → α) (t : Dict α) :
    dget dflt k (dupd dflt k f t) = f (dget dflt k t) := by
  simp [dget_dupd]

theorem dget_dupd_other {α : Type} (dflt : α) {k k' : Str} (h : k ≠ k') (f : α → α) (t : Dict α) :
    dget dflt k' (dupd dflt k f t) = dget dflt k' t := by
  simp [dget_dupd, h]

theorem sum_map_dupd {α : Type} (dflt : α) (k : Str) (f : α → α) (t : Dict α)
    (g : α → Int) (δ : Int) (hf : ∀ v, g (f v) = g v + δ) (hd : g dflt = 0) :
    ((dupd dflt k f t).map (fun p => g p.2)).sum = (t.map (fun p => g p.2)).sum + δ := by
  induction t with
  | nil => simp [dupd, hf, hd]
  | cons e rest ih =>
    obtain ⟨k₀, v⟩ := e
    by_cases h0 : k₀ = k
    · subst h0; simp [dupd, hf]; ring
    · simp [dupd, h0, ih]; ring

theorem mem_sadd (x y : Str) (l : List Str) : y ∈ sadd x l ↔ y = x ∨ y ∈ l := by
  by_cases h : x ∈ l
  · simp [sadd, h]
    intro he; subst he; exact h
  · simp [sadd, h, or_comm]

theorem mem_dedupStr (x : Str) (l : List Str) : x ∈ dedupStr l ↔ x ∈ l := by
  induction l with
  | nil => simp [dedupStr]
  | cons y t ih =>
    by_cases h : y ∈ t
    · simp [dedupStr, h, ih]
      intro he; subst he; exact h
    · simp [dedupStr, h, ih]

/-! ## Library lemmas: characters and digits -/

theorem digitChar_isDigit {n : Nat} (h : n < 10) : isDigitCh (digitChar n) = true := by
  interval_cases n <;> decide

theorem charVal_digitChar {n : Nat} (h : n < 10) : charVal (digitChar n) = n := by
  interval_cases n <;> decide

theorem not_ws_of_digit {c : Char} (h : isDigitCh c = true) : pyWS c = false := by
  simp only [isDigitCh, Bool.and_eq_true, decide_eq_true_eq] at h
  cases hpw : pyWS c
  · rfl
  · exfalso
    simp only [pyWS, Bool.or_eq_true, Bool.and_eq_true, decide_eq_true_eq] at hpw
    omega

theorem digit_ne_comma {c : Char} (h : isDigitCh c = true) : c ≠ ',' := by
  intro he; subst he; exact absurd h (by decide)

theorem digit_ne_minus {c : Char} (h : isDigitCh c = true) : c ≠ '-' := by
  intro he; subst he; exact absurd h (by decide)

theorem digit_ne_plus {c : Char} (h : isDigitCh c = true) : c ≠ '+' := by
  intro he; subst he; exact absurd h (by decide)

theorem natCharsGo_acc (fuel : Nat) : ∀ n acc, natCharsGo fuel n acc = natCharsGo fuel n [] ++ acc := by
  induction fuel with
  | zero => intro n acc; simp [natCharsGo]
  | succ fuel ih =>
    intro n acc
    by_cases h : n < 10
    · simp [natCharsGo, h]
    · simp only [natCharsGo, if_neg h]
      rw [ih (n / 10) (digitChar (n % 10) :: acc), ih (n / 10) [digitChar (n % 10)]]
      simp

theorem natCharsGo_fuel {n : Nat} : ∀ {fuel fuel' : Nat}, n < fuel → n < fuel' →
    natCharsGo fuel n [] = natCharsGo fuel' n [] := by
  induction n using Nat.strong_induction_on with
  | _ n ih =>
    intro fuel fuel' h h'
    match fuel, fuel' with
    | 0, _ => omega
    | _ + 1, 0 => omega
    | f + 1, f' + 1 =>
      by_cases h10 : n < 10
      · simp [natCharsGo, h10]
      · simp only [natCharsGo, if_neg h10]
        rw [natCharsGo_acc f (n / 10) [digitChar (n % 10)],
          natCharsGo_acc f' (n / 10) [digitChar (n % 10)]]
        have hd : n / 10 < n := Nat.div_lt_self (by omega) (by omega)
        exact congrArg (· ++ [digitChar (n % 10)]) (ih (n / 10) hd (by omega) (by omega))

theorem natChars_small {n : Nat} (h : n < 10) : natChars n = [digitChar n] := by
  simp [natChars, natCharsGo, h]

theorem natChars_step {n : Nat} (h : 10 ≤ n) :
    natChars n = natChars (n / 10) ++ [digitChar (n % 10)] := by
  have h1 : natChars n = natCharsGo n (n / 10) [digitChar (n % 10)] := by
    simp [natChars, natCharsGo, Nat.not_lt.mpr h]
  rw [h1, natCharsGo_acc]
  have hd : n / 10 < n := Nat.div_lt_self (by omega) (by omega)
  rw [natCharsGo_fuel (by omega) (Nat.lt_succ_self _)]
  rfl

theorem natChars_ne_nil (n : Nat) : natChars n ≠ [] := by
  by_cases h : n < 10
  · simp [natChars_small h]
  · simp [natChars_step (Nat.not_lt.mp h)]

theorem natChars_digits (n : Nat) : ∀ c ∈ natChars n, isDigitCh c = true := by
  induction n using Nat.strong_induction_on with
  | _ n ih =>
    by_cases h : n < 10
    · simp [natChars_small h, digitChar_isDigit h]
    · rw [natChars_step (Nat.not_lt.mp h)]
      intro c hc
      rcases List.mem_append.mp hc with hc | hc
      · exact ih (n / 10) (Nat.div_lt_self (by omega) (by omega)) c hc
      · simp at hc
        subst hc
        exact digitChar_isDigit (Nat.mod_lt _ (by omega))

theorem digitsVal_append_one (l : Str) (c : Char) :
    digitsVal (l ++ [c]) = 10 * digitsVal l + charVal c := by
  simp [digitsVal, List.foldl_append]

theorem digitsVal_natChars (n : Nat) : digitsVal (natChars n) = n := by
  induction n using Nat.strong_induction_on with
  | _ n ih =>
    by_cases h : n < 10
    · simp [natChars_small h, digitsVal, charVal_digitChar h]
    · rw [natChars_step (Nat.not_lt.mp h), digitsVal_append_one,
        ih (n / 10) (Nat.div_lt_self (by omega) (by omega)),
        charVal_digitChar (Nat.mod_lt _ (by omega))]
      omega

theorem intChars_chars (v : Int) : ∀ c ∈ intChars v, isDigitCh c = true ∨ c = '-' := by
  match v with
  | Int.ofNat n =>
    intro c hc
    exact Or.inl (natChars_digits n c hc)
  | Int.negSucc n =>
    intro c hc
    rcases List.mem_cons.mp hc with hc | hc
    · exact Or.inr hc
    · exact Or.inl (natChars_digits (n + 1) c hc)

theorem intChars_ne_nil (v : Int) : intChars v ≠ [] := by
  match v with
  | Int.ofNat n => exact natChars_ne_nil n
  | Int.negSucc n => simp [intChars]

theorem intChars_not_ws (v : Int) : ∀ c ∈ intChars v, pyWS c = false := by
  intro c hc
  rcases intChars_chars v c hc with h | h
  · exact not_ws_of_digit h
  · subst h; decide

theorem intChars_not_comma (v : Int) : ∀ c ∈ intChars v, c ≠ ',' := by
  intro c hc
  rcases intChars_chars v c hc with h | h
  · exact digit_ne_comma h
  · subst h; decide

theorem dropWhile_eq_self_of {p : Char → Bool} {l : Str} (h : ∀ c ∈ l, p c = false) :
    l.dropWhile p = l := by
  cases l with
  | nil => rfl
  | cons c t => simp [List.dropWhile_cons, h c (by simp)]

theorem pyStrip_eq_self {l : Str} (h : ∀ c ∈ l, pyWS c = false) : pyStrip l = l := by
  have h1 : l.dropWhile pyWS = l := dropWhile_eq_self_of h
  have h2 : l.reverse.dropWhile pyWS = l.reverse :=
    dropWhile_eq_self_of (fun c hc => h c (List.mem_reverse.mp hc))
  simp [pyStrip, h1, h2]

theorem pyInt_intChars (v : Int) : pyInt (intChars v) = some v := by
  have hs : pyStrip (intChars v) = intChars v := pyStrip_eq_self (intChars_not_ws v)
  match v with
  | Int.ofNat n =>
    have hne := natChars_ne_nil n
    have hd := natChars_digits n
    obtain ⟨c, rest, hnc⟩ : ∃ c rest, natChars n = c :: rest := by
      cases hx : natChars n with
      | nil => exact absurd hx hne
      | cons c rest => exact ⟨c, rest, rfl⟩
    have hdc : isDigitCh c = true := hd c (by rw [hnc]; simp)
    have hall : List.all (c :: rest) isDigitCh = true :=
      List.all_eq_true.mpr (by rw [← hnc]; exact hd)
    have hic : intChars (Int.ofNat n) = natChars n := rfl
    rw [hic] at hs
    have hs' : pyStrip (c :: rest) = c :: rest := by rw [← hnc]; exact hs
    rw [hic, hnc]
    simp only [pyInt, hs']
    rw [if_neg (digit_ne_minus hdc), if_neg (digit_ne_plus hdc), if_pos hall, ← hnc,
      digitsVal_natChars]
    rfl
  | Int.negSucc n =>
    have hd := natChars_digits (n + 1)
    have hall : List.all (natChars (n + 1)) isDigitCh = true := List.all_eq_true.mpr hd
    have hic : intChars (Int.negSucc n) = '-' :: natChars (n + 1) := rfl
    rw [hic] at hs
    rw [hic]
    simp only [pyInt, hs]
    rw [if_pos trivial, if_pos (by simp [natChars_ne_nil (n + 1), hall]), digitsVal_natChars]
    congr 1

/-! ## Library lemmas: splitting and stripping CSV rows -/

theorem splitComma_ne_nil (l : Str) : splitComma l ≠ [] := by
  cases l with
  | nil => simp [splitComma]
  | cons c t =>
    by_cases h : c = ',' <;> simp [splitComma, h]

theorem splitComma_no_comma {l : Str} (h : ',' ∉ l) : splitComma l = [l] := by
  induction l with
  | nil => rfl
  | cons c t ih =>
    have hc : ¬ c = ',' := fun he => h (he ▸ List.mem_cons_self c t)
    have ht : ',' ∉ t := fun hm => h (List.mem_cons_of_mem c hm)
    simp [splitComma, hc, ih ht]

theorem splitComma_append {a : Str} (b : Str) (h : ',' ∉ a) :
    splitComma (a ++ ',' :: b) = a :: splitComma b := by
  induction a with
  | nil => simp [splitComma]
  | cons c t ih =>
    have hc : ¬ c = ',' := fun he => h (he ▸ List.mem_cons_self c t)
    have ht : ',' ∉ t := fun hm => h (List.mem_cons_of_mem c hm)
    simp only [List.cons_append, splitComma, if_neg hc, List.append_eq]
    rw [ih ht]
    simp

theorem not_mem_comma_intChars (v : Int) : ',' ∉ intChars v :=
  fun hm => intChars_not_comma v ',' hm rfl

theorem csvRow_split {k : Str} (hk : ',' ∉ k) (b : Bucket) :
    splitComma (csvRow k b) =
      [k, intChars b.samples, intChars b.total_lines,
        intChars (dget 0 infoK b.level_counts),
        intChars (dget 0 warnK b.level_counts),
        intChars (dget 0 errorK b.level_counts),
        intChars (dget 0 debugK b.level_counts)] := by
  have e : csvRow k b =
      k ++ ',' :: (intChars b.samples ++ ',' :: (intChars b.total_lines ++ ',' ::
        (intChars (dget 0 infoK b.level_counts) ++ ',' ::
          (intChars (dget 0 warnK b.level_counts) ++ ',' ::
            (intChars (dget 0 errorK b.level_counts) ++ ',' ::
              intChars (dget 0 debugK b.level_counts)))))) := by
    simp [csvRow]
  rw [e, splitComma_append _ hk, splitComma_append _ (not_mem_comma_intChars _),
    splitComma_append _ (not_mem_comma_intChars _), splitComma_append _ (not_mem_comma_intChars _),
    splitComma_append _ (not_mem_comma_intChars _), splitComma_append _ (not_mem_comma_intChars _),
    splitComma_no_comma (not_mem_comma_intChars _)]

theorem head_false_of_dropWhile_self {p : Char → Bool} {c : Char} {t : Str}
    (h : (c :: t).dropWhile p = c :: t) : p c = false := by
  cases hp : p c
  · rfl
  · rw [List.dropWhile_cons, hp, if_pos rfl] at h
    have hle := (List.dropWhile_sublist (l := t) p).length_le
    rw [h] at hle
    simp at hle

theorem dropWhile_append_stop {p : Char → Bool} {c : Char} (t b : Str) (hc : p c = false) :
    ((c :: t) ++ b).dropWhile p = (c :: t) ++ b := by
  simp [List.dropWhile_cons, hc]

theorem pyStrip_key_append {k rest : Str} (hk : k.dropWhile pyWS = k)
    (h1 : ∃ c t, rest = c :: t ∧ pyWS c = false)
    (h2 : ∃ c t, rest.reverse = c :: t ∧ pyWS c = false) :
    pyStrip (k ++ rest) = k ++ rest := by
  obtain ⟨c1, t1, he1, hc1⟩ := h1
  obtain ⟨c2, t2, he2, hc2⟩ := h2
  have hfront : (k ++ rest).dropWhile pyWS = k ++ rest := by
    cases k with
    | nil =>
      rw [List.nil_append, he1]
      simp [List.dropWhile_cons, hc1]
    | cons kc kt =>
      have hkc : pyWS kc = false := head_false_of_dropWhile_self hk
      simp [List.dropWhile_cons, hkc]
  have hback : (k ++ rest).reverse.dropWhile pyWS = (k ++ rest).reverse := by
    rw [List.reverse_append, he2]
    exact dropWhile_append_stop t2 k.reverse hc2
  simp only [pyStrip]
  rw [hfront, hback, List.reverse_reverse]

theorem rev_head_of_ne_nil {l : Str} (h : l ≠ []) : ∃ c t, l.reverse = c :: t ∧ c ∈ l := by
  cases hr : l.reverse with
  | nil => exact absurd (List.reverse_eq_nil_iff.mp hr) h
  | cons c t =>
    refine ⟨c, t, rfl, ?_⟩
    rw [← List.mem_reverse, hr]
    simp

theorem pyStrip_csvRow {k : Str} (hk : k.dropWhile pyWS = k) (b : Bucket) :
    pyStrip (csvRow k b) = csvRow k b := by
  have e : csvRow k b =
      k ++ (',' :: (intChars b.samples ++ ',' :: (intChars b.total_lines ++ ',' ::
        (intChars (dget 0 infoK b.level_counts) ++ ',' ::
          (intChars (dget 0 warnK b.level_counts) ++ ',' ::
            (intChars (dget 0 errorK b.level_counts) ++ ',' ::
              intChars (dget 0 debugK b.level_counts))))))) := by
    simp [csvRow]
  rw [e]
  apply pyStrip_key_append hk
  · exact ⟨',', _, rfl, by decide⟩
  · obtain ⟨c, t, hct, hmem⟩ :=
      rev_head_of_ne_nil (intChars_ne_nil (dget 0 debugK b.level_counts))
    refine ⟨c, ?_, ?_, ?_⟩
    · exact t ++ (',' :: (intChars b.samples ++ ',' :: (intChars b.total_lines ++ ',' ::
        (intChars (dget 0 infoK b.level_counts) ++ ',' ::
          (intChars (dget 0 warnK b.level_counts) ++ ',' ::
            (intChars (dget 0 errorK b.level_counts) ++ [','])))))).reverse
    · simp [List.reverse_append, hct, List.append_assoc]
    · exact intChars_not_ws _ c hmem

/-! ## Library lemmas: physical lines of the written CSV -/

theorem splitNL_append {a : Str} (b : Str) (h : '\n' ∉ a) :
    splitNL (a ++ '\n' :: b) = a :: splitNL b := by
  induction a with
  | nil => simp [splitNL]
  | cons c t ih =>
    have hc : ¬ c = '\n' := fun he => h (he ▸ List.mem_cons_self c t)
    have ht : '\n' ∉ t := fun hm => h (List.mem_cons_of_mem c hm)
    simp only [List.cons_append, splitNL, if_neg hc, List.append_eq]
    rw [ih ht]
    simp

theorem normNL_id {s : Str} (h : '\x0d' ∉ s) : normNL s = s := by
  induction s with
  | nil => rfl
  | cons c t ih =>
    have hc : ¬ c = '\x0d' := fun he => h (he ▸ List.mem_cons_self c t)
    have ht : '\x0d' ∉ t := fun hm => h (List.mem_cons_of_mem c hm)
    cases t with
    | nil => simp [normNL, hc]
    | cons d t2 => simp [normNL, hc, ih ht]

theorem noCR_joinNL {lines : List Str} (h : ∀ l ∈ lines, '\x0d' ∉ l) :
    '\x0d' ∉ joinNL lines := by
  induction lines with
  | nil => simp [joinNL]
  | cons l rest ih =>
    intro hm
    have he : joinNL (l :: rest) = l ++ '\n' :: joinNL rest := rfl
    rw [he] at hm
    rcases List.mem_append.mp hm with hm | hm
    · exact h l (List.mem_cons_self l rest) hm
    · rcases List.mem_cons.mp hm with hq | hm
      · exact absurd hq (by decide)
      · exact ih (fun x hx => h x (List.mem_cons_of_mem l hx)) hm

theorem splitNL_joinNL {lines : List Str} (h : ∀ l ∈ lines, '\n' ∉ l) :
    splitNL (joinNL lines) = lines ++ [[]] := by
  induction lines with
  | nil => rfl
  | cons l rest ih =>
    have he : joinNL (l :: rest) = l ++ '\n' :: joinNL rest := rfl
    rw [he, splitNL_append _ (h l (List.mem_cons_self l rest)),
      ih (fun x hx => h x (List.mem_cons_of_mem l hx))]
    rfl

theorem physLines_joinNL {lines : List Str}
    (h : ∀ l ∈ lines, '\n' ∉ l ∧ '\x0d' ∉ l) :
    physLines (joinNL lines) = lines := by
  unfold physLines
  rw [normNL_id (noCR_joinNL (fun l hl => (h l hl).2)),
    splitNL_joinNL (fun l hl => (h l hl).1)]
  simp

theorem insStr_perm (x : Str) (l : List Str) : (insStr x l).Perm (x :: l) := by
  induction l with
  | nil => exact List.Perm.refl _
  | cons y ys ih =>
    by_cases h : strLt x y
    · simp [insStr, h]
    · simp only [insStr, if_neg h]
      exact (List.Perm.cons y ih).trans (List.Perm.swap x y ys)

theorem sortStr_perm (l : List Str) : (sortStr l).Perm l := by
  induction l with
  | nil => exact List.Perm.refl _
  | cons x xs ih =>
    exact (insStr_perm x (sortStr xs)).trans (List.Perm.cons x ih)

theorem mem_csvRow_cases {k : Str} {b : Bucket} {c : Char} (hc : c ∈ csvRow k b) :
    c ∈ k ∨ c = ',' ∨ isDigitCh c = true ∨ c = '-' := by
  simp only [csvRow, List.append_assoc, List.mem_append, List.mem_singleton] at hc
  casesm* _ ∨ _
  all_goals try exact Or.inl (by assumption)
  all_goals try exact Or.inr (Or.inl (by assumption))
  all_goals
    rename_i hm
    exact Or.inr (Or.inr (intChars_chars _ c hm))

theorem csvRow_no_nl {k : Str} (hk : CleanKey k) (b : Bucket) :
    '\n' ∉ csvRow k b ∧ '\x0d' ∉ csvRow k b := by
  constructor
  · intro hm
    rcases mem_csvRow_cases hm with h | h | h | h
    · exact hk.2.1 h
    · exact absurd h (by decide)
    · exact absurd h (by decide)
    · exact absurd h (by decide)
  · intro hm
    rcases mem_csvRow_cases hm with h | h | h | h
    · exact hk.2.2.1 h
    · exact absurd h (by decide)
    · exact absurd h (by decide)
    · exact absurd h (by decide)

/-- When every minute key is clean, the physical lines of the written file
are exactly the logical rows. -/
theorem write_csv_clean (tbl : ByMinute)
    (hcl : ∀ k ∈ tbl.map (fun p => p.1), CleanKey k) :
    write_csv tbl = csvLines tbl := by
  unfold write_csv
  apply physLines_joinNL
  intro l hl
  simp only [csvLines] at hl
  rcases List.mem_cons.mp hl with he | hm
  · subst he
    exact ⟨by decide, by decide⟩
  · obtain ⟨x, hx, hxe⟩ := List.mem_map.mp hm
    subst hxe
    exact csvRow_no_nl (hcl x ((sortStr_perm _).mem_iff.mp hx)) _

/-! ## Library lemmas: loading a freshly written CSV -/

theorem loadCsvRow_written (k : Str) (b : Bucket) (tbl : ByMinute) :
    loadCsvRow [k, intChars b.samples, intChars b.total_lines,
      intChars (dget 0 infoK b.level_counts), intChars (dget 0 warnK b.level_counts),
      intChars (dget 0 errorK b.level_counts), intChars (dget 0 debugK b.level_counts)] tbl =
      (rowUpdate k b tbl, true) := by
  unfold loadCsvRow
  simp only [List.getD_cons_zero, List.getD_cons_succ, pyInt_intChars]
  rfl

theorem dget_rowUpdate_other {k k' : Str} (h : k ≠ k') (b : Bucket) (tbl : ByMinute) :
    dget emptyBucket k' (rowUpdate k b tbl) = dget emptyBucket k' tbl := by
  simp [rowUpdate, dget_dupd, h]

theorem rowUpdate_same_fields (k : Str) (b : Bucket) (tbl : ByMinute) :
    (dget emptyBucket k (rowUpdate k b tbl)).samples = b.samples ∧
    (dget emptyBucket k (rowUpdate k b tbl)).total_lines = b.total_lines ∧
    pLvl infoK (dget emptyBucket k (rowUpdate k b tbl)) = pLvl infoK b ∧
    pLvl warnK (dget emptyBucket k (rowUpdate k b tbl)) = pLvl warnK b ∧
    pLvl errorK (dget emptyBucket k (rowUpdate k b tbl)) = pLvl errorK b ∧
    pLvl debugK (dget emptyBucket k (rowUpdate k b tbl)) = pLvl debugK b := by
  have h1 : warnK ≠ infoK := by decide
  have h2 : errorK ≠ infoK := by decide
  have h3 : debugK ≠ infoK := by decide
  have h4 : errorK ≠ warnK := by decide
  have h5 : debugK ≠ warnK := by decide
  have h6 : debugK ≠ errorK := by decide
  simp [rowUpdate, dget_dupd_same, pLvl, dget_dupd, h1, h2, h3, h4, h5, h6]

theorem fold_rowUpdate_not_mem {ks : List Str} {k : Str} (h : k ∉ ks) (g : Str → Bucket) :
    ∀ tbl : ByMinute,
      dget emptyBucket k (ks.foldl (fun t x => rowUpdate x (g x) t) tbl) =
        dget emptyBucket k tbl := by
  induction ks with
  | nil => intro tbl; rfl
  | cons x rest ih =>
    intro tbl
    have hx : x ≠ k := fun he => h (he ▸ List.mem_cons_self x rest)
    have hr : k ∉ rest := fun hm => h (List.mem_cons_of_mem x hm)
    simp only [List.foldl_cons]
    rw [ih hr, dget_rowUpdate_other hx]

theorem loadCsvLines_cons_full {line : Str} (rest : List Str) {tbl tbl' : ByMinute}
    (h7 : (splitComma (pyStrip line)).length ≥ 7)
    (hrow : loadCsvRow (splitComma (pyStrip line)) tbl = (tbl', true)) :
    loadCsvLines (line :: rest) tbl = loadCsvLines rest tbl' := by
  simp only [loadCsvLines, if_pos h7, hrow]

theorem loadCsvLines_written (g : Str → Bucket) :
    ∀ (ks : List Str) (tbl : ByMinute),
      (∀ k ∈ ks, ',' ∉ k ∧ List.dropWhile pyWS k = k) →
      loadCsvLines (ks.map (fun k => csvRow k (g k))) tbl =
        ks.foldl (fun t x => rowUpdate x (g x) t) tbl := by
  intro ks
  induction ks with
  | nil => intro tbl _; rfl
  | cons k rest ih =>
    intro tbl hcl
    obtain ⟨hkc, hkw⟩ := hcl k (List.mem_cons_self k rest)
    have h7 : (splitComma (pyStrip (csvRow k (g k)))).length ≥ 7 := by
      rw [pyStrip_csvRow hkw, csvRow_split hkc]
      simp
    have hrow : loadCsvRow (splitComma (pyStrip (csvRow k (g k)))) tbl =
        (rowUpdate k (g k) tbl, true) := by
      rw [pyStrip_csvRow hkw, csvRow_split hkc]
      exact loadCsvRow_written k (g k) tbl
    rw [List.map_cons, loadCsvLines_cons_full _ h7 hrow, List.foldl_cons]
    exact ih _ (fun x hx => hcl x (List.mem_cons_of_mem k hx))

theorem dget_fold_rowUpdate_mem {ks : List Str} (g : Str → Bucket) :
    ∀ {k : Str}, ks.Nodup → k ∈ ks → ∀ tbl : ByMinute,
      (dget emptyBucket k (ks.foldl (fun t x => rowUpdate x (g x) t) tbl)).samples = (g k).samples ∧
      (dget emptyBucket k (ks.foldl (fun t x => rowUpdate x (g x) t) tbl)).total_lines = (g k).total_lines ∧
      pLvl infoK (dget emptyBucket k (ks.foldl (fun t x => rowUpdate x (g x) t) tbl)) = pLvl infoK (g k) ∧
      pLvl warnK (dget emptyBucket k (ks.foldl (fun t x => rowUpdate x (g x) t) tbl)) = pLvl warnK (g k) ∧
      pLvl errorK (dget emptyBucket k (ks.foldl (fun t x => rowUpdate x (g x) t) tbl)) = pLvl errorK (g k) ∧
      pLvl debugK (dget emptyBucket k (ks.foldl (fun t x => rowUpdate x (g x) t) tbl)) = pLvl debugK (g k) := by
  induction ks with
  | nil => intro k _ hk; exact absurd hk (List.not_mem_nil k)
  | cons x rest ih =>
    intro k hnd hk tbl
    rcases List.mem_cons.mp hk with he | hm
    · subst he
      have hx : k ∉ rest := (List.nodup_cons.mp hnd).1
      simp only [List.foldl_cons]
      rw [fold_rowUpdate_not_mem hx]
      exact rowUpdate_same_fields k (g k) tbl
    · simp only [List.foldl_cons]
      exact ih (List.nodup_cons.mp hnd).2 hm _

theorem dget_not_mem {α : Type} (dflt : α) {k : Str} {t : Dict α}
    (h : k ∉ t.map (fun p => p.1)) : dget dflt k t = dflt := by
  induction t with
  | nil => rfl
  | cons e rest ih =>
    obtain ⟨k₀, v⟩ := e
    have hk : k₀ ≠ k := by
      intro he
      exact h (he ▸ List.mem_map_of_mem (fun p => p.1) (List.mem_cons_self (k₀, v) rest))
    simp only [dget, if_neg hk]
    exact ih (fun hm => h (by rw [List.map_cons]; exact List.mem_cons_of_mem _ hm))

/-- CSV write/read round trip: after writing a dict-shaped table (distinct
keys) whose keys survive the CSV format, reading it back reproduces samples,
total lines, and the four persisted level counts at every key. -/
theorem load_write_csv (tbl : ByMinute) (hnd : (tbl.map (fun p => p.1)).Nodup)
    (hcl : ∀ k ∈ tbl.map (fun p => p.1), CleanKey k) (k : Str) :
    (dget emptyBucket k (load_existing_data (write_csv tbl))).samples =
        (dget emptyBucket k tbl).samples ∧
    (dget emptyBucket k (load_existing_data (write_csv tbl))).total_lines =
        (dget emptyBucket k tbl).total_lines ∧
    pLvl infoK (dget emptyBucket k (load_existing_data (write_csv tbl))) =
        pLvl infoK (dget emptyBucket k tbl) ∧
    pLvl warnK (dget emptyBucket k (load_existing_data (write_csv tbl))) =
        pLvl warnK (dget emptyBucket k tbl) ∧
    pLvl errorK (dget emptyBucket k (load_existing_data (write_csv tbl))) =
        pLvl errorK (dget emptyBucket k tbl) ∧
    pLvl debugK (dget emptyBucket k (load_existing_data (write_csv tbl))) =
        pLvl debugK (dget emptyBucket k tbl) := by
  have hperm := sortStr_perm (tbl.map (fun p => p.1))
  have hnd' : (sortStr (tbl.map (fun p => p.1))).Nodup := hperm.nodup_iff.mpr hnd
  have hcl' : ∀ x ∈ sortStr (tbl.map (fun p => p.1)), ',' ∉ x ∧ List.dropWhile pyWS x = x :=
    fun x hx => ⟨(hcl x (hperm.mem_iff.mp hx)).1, (hcl x (hperm.mem_iff.mp hx)).2.2.2⟩
  have hwc : write_csv tbl = csvHeader ::
      (sortStr (tbl.map (fun p => p.1))).map (fun x => csvRow x (dget emptyBucket x tbl)) :=
    write_csv_clean tbl hcl
  have hld : load_existing_data (write_csv tbl) =
      (sortStr (tbl.map (fun p => p.1))).foldl
        (fun t x => rowUpdate x (dget emptyBucket x tbl) t) [] := by
    rw [hwc]
    exact loadCsvLines_written _ _ _ hcl'
  rw [hld]
  by_cases hk : k ∈ sortStr (tbl.map (fun p => p.1))
  · exact dget_fold_rowUpdate_mem _ hnd' hk []
  · rw [fold_rowUpdate_not_mem hk]
    have hk2 : k ∉ tbl.map (fun p => p.1) := fun hm => hk (hperm.mem_iff.mpr hm)
    rw [dget_not_mem _ hk2]
    simp [dget]

/-! ## Library lemmas: effect of pass 2 on the table, per projection -/

theorem proj_dupd (g : Bucket → Int) (f : Bucket → Bucket) (δ : Int)
    (hf : ∀ b, g (f b) = g b + δ) (mk k : Str) (tbl : ByMinute) :
    g (dget emptyBucket k (dupd emptyBucket mk f tbl)) =
      g (dget emptyBucket k tbl) + (if mk = k then δ else 0) := by
  rw [dget_dupd]
  by_cases h : mk = k <;> simp [h, hf]

theorem proj_inner_levels (g : Bucket → Int) (mk k : Str) (lvls : List (Str × Int))
    (δOf : Str × Int → Int)
    (hf : ∀ p : Str × Int, ∀ b, g { b with level_counts := dupd 0 p.1 (· + p.2) b.level_counts } =
      g b + δOf p) :
    ∀ tbl : ByMinute,
      g (dget emptyBucket k (lvls.foldl (fun t p =>
          dupd emptyBucket mk (fun b =>
            { b with level_counts := dupd 0 p.1 (· + p.2) b.level_counts }) t) tbl)) =
        g (dget emptyBucket k tbl) + (if mk = k then (lvls.map δOf).sum else 0) := by
  induction lvls with
  | nil => intro tbl; by_cases h : mk = k <;> simp [h]
  | cons p rest ih =>
    intro tbl
    simp only [List.foldl_cons]
    rw [ih, proj_dupd g _ (δOf p) (hf p)]
    by_cases h : mk = k <;> simp [h] <;> ring

theorem proj_inner_msgs (g : Bucket → Int) (mk k : Str) (msgs : List (Str × Int))
    (hg : ∀ p : Str × Int, ∀ b, g { b with message_counts := dupd 0 p.1 (· + p.2) b.message_counts } =
      g b) :
    ∀ tbl : ByMinute,
      g (dget emptyBucket k (msgs.foldl (fun t p =>
          dupd emptyBucket mk (fun b =>
            { b with message_counts := dupd 0 p.1 (· + p.2) b.message_counts }) t) tbl)) =
        g (dget emptyBucket k tbl) := by
  induction msgs with
  | nil => intro tbl; rfl
  | cons p rest ih =>
    intro tbl
    simp only [List.foldl_cons]
    rw [ih]
    have := proj_dupd g _ 0 (fun b => by rw [hg p b]; ring) mk k tbl
    simpa using this

theorem proj_foldMsgEntry (g : Bucket → Int) (e : Str × List (Str × Int)) (k : Str)
    (hg : ∀ p : Str × Int, ∀ b, g { b with message_counts := dupd 0 p.1 (· + p.2) b.message_counts } =
      g b) (tbl : ByMinute) :
    g (dget emptyBucket k (foldMsgEntry tbl e)) = g (dget emptyBucket k tbl) := by
  unfold foldMsgEntry
  exact proj_inner_msgs g (e.1.take 16) k e.2 hg tbl

theorem proj_fold_msg_entries (g : Bucket → Int) (es : List (Str × List (Str × Int))) (k : Str)
    (hg : ∀ p : Str × Int, ∀ b, g { b with message_counts := dupd 0 p.1 (· + p.2) b.message_counts } =
      g b) :
    ∀ tbl : ByMinute,
      g (dget emptyBucket k (es.foldl foldMsgEntry tbl)) = g (dget emptyBucket k tbl) := by
  induction es with
  | nil => intro tbl; rfl
  | cons e rest ih =>
    intro tbl
    simp only [List.foldl_cons]
    rw [ih, proj_foldMsgEntry g e k hg]

theorem sum_map_zero {α : Type} (l : List α) : (l.map (fun _ => (0 : Int))).sum = 0 := by
  induction l <;> simp [*]

theorem sum_map_one {α : Type} (l : List α) : (l.map (fun _ => (1 : Int))).sum = (l.length : Int) := by
  induction l with
  | nil => simp
  | cons x t ih => simp [ih]; ring

theorem sum_map_const {α : Type} (l : List α) (c : Int) :
    (l.map (fun _ => c)).sum = (l.length : Int) * c := by
  induction l with
  | nil => simp
  | cons x t ih =>
    simp [ih]
    push_cast
    ring

theorem proj_fold_entries (g : Bucket → Int) (s : Summary) (k : Str)
    (δE : Str × Dict Int → Int)
    (hE : ∀ (e : Str × Dict Int) (tbl : ByMinute),
      g (dget emptyBucket k (foldLevelEntry s tbl e)) =
        g (dget emptyBucket k tbl) + (if e.1.take 16 = k then δE e else 0)) :
    ∀ (entries : List (Str × Dict Int)) (tbl : ByMinute),
      g (dget emptyBucket k (entries.foldl (foldLevelEntry s) tbl)) =
        g (dget emptyBucket k tbl) +
          ((entries.filter (fun e => e.1.take 16 = k)).map δE).sum := by
  intro entries
  induction entries with
  | nil => intro tbl; simp
  | cons e rest ih =>
    intro tbl
    simp only [List.foldl_cons]
    rw [ih, hE e tbl, List.filter_cons]
    by_cases h : e.1.take 16 = k <;> simp [h] <;> ring

theorem samples_foldLevelEntry (s : Summary) (e : Str × Dict Int) (k : Str) (tbl : ByMinute) :
    (dget emptyBucket k (foldLevelEntry s tbl e)).samples =
      (dget emptyBucket k tbl).samples + (if e.1.take 16 = k then 1 else 0) := by
  unfold foldLevelEntry
  rw [proj_inner_levels (fun b => b.samples) (e.1.take 16) k e.2 (fun _ => 0)
      (fun p b => by simp),
    proj_dupd (fun b => b.samples) _ 0 (fun b => by simp),
    proj_dupd (fun b => b.samples) _ 0 (fun b => by simp),
    proj_dupd (fun b => b.samples) _ 1 (fun b => by simp)]
  by_cases h : e.1.take 16 = k <;> simp [h, sum_map_zero]

theorem total_foldLevelEntry (s : Summary) (e : Str × Dict Int) (k : Str) (tbl : ByMinute) :
    (dget emptyBucket k (foldLevelEntry s tbl e)).total_lines =
      (dget emptyBucket k tbl).total_lines + (if e.1.take 16 = k then s.total_lines else 0) := by
  unfold foldLevelEntry
  rw [proj_inner_levels (fun b => b.total_lines) (e.1.take 16) k e.2 (fun _ => 0)
      (fun p b => by simp),
    proj_dupd (fun b => b.total_lines) _ 0 (fun b => by simp),
    proj_dupd (fun b => b.total_lines) _ s.total_lines (fun b => by simp),
    proj_dupd (fun b => b.total_lines) _ 0 (fun b => by simp)]
  by_cases h : e.1.take 16 = k <;> simp [h, sum_map_zero]

theorem failed_foldLevelEntry (s : Summary) (e : Str × Dict Int) (k : Str) (tbl : ByMinute) :
    (dget emptyBucket k (foldLevelEntry s tbl e)).failed_to_parse =
      (dget emptyBucket k tbl).failed_to_parse +
        (if e.1.take 16 = k then s.failed_to_parse else 0) := by
  unfold foldLevelEntry
  rw [proj_inner_levels (fun b => b.failed_to_parse) (e.1.take 16) k e.2 (fun _ => 0)
      (fun p b => by simp),
    proj_dupd (fun b => b.failed_to_parse) _ s.failed_to_parse (fun b => by simp),
    proj_dupd (fun b => b.failed_to_parse) _ 0 (fun b => by simp),
    proj_dupd (fun b => b.failed_to_parse) _ 0 (fun b => by simp)]
  by_cases h : e.1.take 16 = k <;> simp [h, sum_map_zero]

theorem plvl_foldLevelEntry (lv : Str) (s : Summary) (e : Str × Dict Int) (k : Str)
    (tbl : ByMinute) :
    pLvl lv (dget emptyBucket k (foldLevelEntry s tbl e)) =
      pLvl lv (dget emptyBucket k tbl) +
        (if e.1.take 16 = k then ((e.2.filter (fun p => p.1 = lv)).map (fun p => p.2)).sum
         else 0) := by
  unfold foldLevelEntry
  rw [proj_inner_levels (pLvl lv) (e.1.take 16) k e.2 (fun p => if p.1 = lv then p.2 else 0)
      (fun p b => by
        by_cases hp : p.1 = lv
        · simp only [pLvl]
          rw [dget_dupd]
          simp [hp]
        · simp only [pLvl]
          rw [dget_dupd]
          simp [hp]),
    proj_dupd (pLvl lv) _ 0 (fun b => by simp [pLvl]),
    proj_dupd (pLvl lv) _ 0 (fun b => by simp [pLvl]),
    proj_dupd (pLvl lv) _ 0 (fun b => by simp [pLvl])]
  by_cases h : e.1.take 16 = k
  · simp only [h, if_pos rfl, if_true]
    have : ∀ (lvls : List (Str × Int)),
        (lvls.map (fun p => if p.1 = lv then p.2 else 0)).sum =
          ((lvls.filter (fun p => p.1 = lv)).map (fun p => p.2)).sum := by
      intro lvls
      induction lvls with
      | nil => simp
      | cons q qs ihq =>
        rw [List.map_cons, List.filter_cons]
        by_cases hq : q.1 = lv <;> simp [hq, ihq]
    rw [this]
    ring
  · simp [h]

theorem samples_pass2File (f : LogFile) (st : Pass2St) (k : Str) :
    (dget emptyBucket k (pass2File st f).tbl).samples =
      (dget emptyBucket k st.tbl).samples + cSamples f k := by
  obtain ⟨name, c⟩ := f
  cases c with
  | none => simp [pass2File, cSamples]
  | some s =>
    simp only [pass2File]
    rw [proj_fold_msg_entries (fun b => b.samples) _ k (fun p b => by simp),
      proj_fold_entries (fun b => b.samples) s k (fun _ => 1)
        (fun e tbl => samples_foldLevelEntry s e k tbl)]
    simp [cSamples, cntEntries, sum_map_one]

theorem total_pass2File (f : LogFile) (st : Pass2St) (k : Str) :
    (dget emptyBucket k (pass2File st f).tbl).total_lines =
      (dget emptyBucket k st.tbl).total_lines + cTotal f k := by
  obtain ⟨name, c⟩ := f
  cases c with
  | none => simp [pass2File, cTotal]
  | some s =>
    simp only [pass2File]
    rw [proj_fold_msg_entries (fun b => b.total_lines) _ k (fun p b => by simp),
      proj_fold_entries (fun b => b.total_lines) s k (fun _ => s.total_lines)
        (fun e tbl => total_foldLevelEntry s e k tbl)]
    simp [cTotal, cntEntries, sum_map_const]

theorem failed_pass2File (f : LogFile) (st : Pass2St) (k : Str) :
    (dget emptyBucket k (pass2File st f).tbl).failed_to_parse =
      (dget emptyBucket k st.tbl).failed_to_parse + cFailed f k := by
  obtain ⟨name, c⟩ := f
  cases c with
  | none => simp [pass2File, cFailed]
  | some s =>
    simp only [pass2File]
    rw [proj_fold_msg_entries (fun b => b.failed_to_parse) _ k (fun p b => by simp),
      proj_fold_entries (fun b => b.failed_to_parse) s k (fun _ => s.failed_to_parse)
        (fun e tbl => failed_foldLevelEntry s e k tbl)]
    simp [cFailed, cntEntries, sum_map_const]

theorem plvl_pass2File (lv : Str) (f : LogFile) (st : Pass2St) (k : Str) :
    pLvl lv (dget emptyBucket k (pass2File st f).tbl) =
      pLvl lv (dget emptyBucket k st.tbl) + cLvl f k lv := by
  obtain ⟨name, c⟩ := f
  cases c with
  | none => simp [pass2File, cLvl]
  | some s =>
    simp only [pass2File]
    rw [proj_fold_msg_entries (pLvl lv) _ k (fun p b => by simp [pLvl]),
      proj_fold_entries (pLvl lv) s k
        (fun e => ((e.2.filter (fun p => p.1 = lv)).map (fun p => p.2)).sum)
        (fun e tbl => plvl_foldLevelEntry lv s e k tbl)]
    simp [cLvl, cLevelS]

theorem samples_pass2_fold (files : List LogFile) :
    ∀ (st : Pass2St) (k : Str),
      (dget emptyBucket k (files.foldl pass2File st).tbl).samples =
        (dget emptyBucket k st.tbl).samples + (files.map (fun f => cSamples f k)).sum := by
  induction files with
  | nil => intro st k; simp
  | cons f rest ih =>
    intro st k
    simp only [List.foldl_cons, List.map_cons, List.sum_cons]
    rw [ih, samples_pass2File]
    ring

theorem total_pass2_fold (files : List LogFile) :
    ∀ (st : Pass2St) (k : Str),
      (dget emptyBucket k (files.foldl pass2File st).tbl).total_lines =
        (dget emptyBucket k st.tbl).total_lines + (files.map (fun f => cTotal f k)).sum := by
  induction files with
  | nil => intro st k; simp
  | cons f rest ih =>
    intro st k
    simp only [List.foldl_cons, List.map_cons, List.sum_cons]
    rw [ih, total_pass2File]
    ring

theorem failed_pass2_fold (files : List LogFile) :
    ∀ (st : Pass2St) (k : Str),
      (dget emptyBucket k (files.foldl pass2File st).tbl).failed_to_parse =
        (dget emptyBucket k st.tbl).failed_to_parse + (files.map (fun f => cFailed f k)).sum := by
  induction files with
  | nil => intro st k; simp
  | cons f rest ih =>
    intro st k
    simp only [List.foldl_cons, List.map_cons, List.sum_cons]
    rw [ih, failed_pass2File]
    ring

theorem plvl_pass2_fold (lv : Str) (files : List LogFile) :
    ∀ (st : Pass2St) (k : Str),
      pLvl lv (dget emptyBucket k (files.foldl pass2File st).tbl) =
        pLvl lv (dget emptyBucket k st.tbl) + (files.map (fun f => cLvl f k lv)).sum := by
  induction files with
  | nil => intro st k; simp
  | cons f rest ih =>
    intro st k
    simp only [List.foldl_cons, List.map_cons, List.sum_cons]
    rw [ih, plvl_pass2File]
    ring

/-! ## Library lemmas: the processed set in pass 2 -/

theorem processed_pass2File (f : LogFile) (st : Pass2St) (x : Str) :
    x ∈ (pass2File st f).processed ↔ (f.2 ≠ none ∧ x = f.1) ∨ x ∈ st.processed := by
  obtain ⟨name, c⟩ := f
  cases c with
  | none => simp [pass2File]
  | some s => simp [pass2File, mem_sadd]

theorem processed_pass2_mem (files : List LogFile) :
    ∀ (st : Pass2St) (x : Str),
      x ∈ (files.foldl pass2File st).processed ↔
        x ∈ st.processed ∨ ∃ f ∈ files, f.2 ≠ none ∧ f.1 = x := by
  induction files with
  | nil => intro st x; simp
  | cons f rest ih =>
    intro st x
    simp only [List.foldl_cons]
    rw [ih]
    rw [processed_pass2File]
    constructor
    · rintro ((⟨hv, he⟩ | h) | ⟨g, hg, hgv, hge⟩)
      · exact Or.inr ⟨f, List.mem_cons_self f rest, hv, he.symm⟩
      · exact Or.inl h
      · exact Or.inr ⟨g, List.mem_cons_of_mem f hg, hgv, hge⟩
    · rintro (h | ⟨g, hg, hgv, hge⟩)
      · exact Or.inl (Or.inr h)
      · rcases List.mem_cons.mp hg with he | hm
        · exact Or.inl (Or.inl ⟨he ▸ hgv, he ▸ hge.symm⟩)
        · exact Or.inr ⟨g, hm, hgv, hge⟩

/-! ## Library lemmas: pass 1 (global message table) -/

theorem dget_fold_pairs (m : Str) (pairs : List (Str × Int)) :
    ∀ am : Dict Int,
      dget 0 m (pairs.foldl (fun a p => dupd 0 p.1 (· + p.2) a) am) =
        dget 0 m am + ((pairs.filter (fun p => p.1 = m)).map (fun p => p.2)).sum := by
  induction pairs with
  | nil => intro am; simp
  | cons p rest ih =>
    intro am
    simp only [List.foldl_cons]
    rw [ih, dget_dupd, List.filter_cons]
    by_cases h : p.1 = m <;> simp [h] <;> ring

theorem msg_pass1File (processed : List Str) (newFiles : List LogFile) (am : Dict Int)
    (f : LogFile) (m : Str) (hc : f.1 ∈ processed ∨ f ∈ newFiles) :
    dget 0 m (pass1File processed newFiles am f) = dget 0 m am + msgTotal f m := by
  obtain ⟨name, c⟩ := f
  cases c with
  | none => simp [pass1File, msgTotal]
  | some s =>
    simp only [pass1File, msgTotal]
    simp only [if_pos hc]
    induction s.message_counts generalizing am with
    | nil => simp
    | cons e rest ih =>
      simp only [List.foldl_cons, List.map_cons, List.sum_cons]
      rw [ih, dget_fold_pairs]
      ring

theorem pass1_fold (m : Str) (processed : List Str) (newFiles : List LogFile) :
    ∀ (files : List LogFile) (acc : Dict Int × List Str),
      (∀ f ∈ files, f.1 ∈ processed ∨ f ∈ newFiles) →
      dget 0 m (files.foldl (fun acc f =>
          match f.2 with
          | none => (acc.1, acc.2 ++ [f.1])
          | some _ => (pass1File processed newFiles acc.1 f, acc.2)) acc).1 =
        dget 0 m acc.1 + (files.map (fun f => msgTotal f m)).sum := by
  intro files
  induction files with
  | nil => intro acc _; simp
  | cons f rest ih =>
    intro acc hc
    obtain ⟨name, c⟩ := f
    cases c with
    | none =>
      simp only [List.foldl_cons, List.map_cons, List.sum_cons]
      rw [ih _ (fun g hg => hc g (List.mem_cons_of_mem _ hg))]
      simp [msgTotal]
    | some s =>
      simp only [List.foldl_cons, List.map_cons, List.sum_cons]
      rw [ih _ (fun g hg => hc g (List.mem_cons_of_mem _ hg))]
      rw [msg_pass1File _ _ _ _ _ (hc _ (List.mem_cons_self _ _))]
      ring

theorem pass1_warns_fold :
    ∀ (files : List LogFile) (processed : List Str) (newFiles : List LogFile)
      (acc : Dict Int × List Str),
      (files.foldl (fun acc f =>
          match f.2 with
          | none => (acc.1, acc.2 ++ [f.1])
          | some _ => (pass1File processed newFiles acc.1 f, acc.2)) acc).2 =
        acc.2 ++ (files.filter (fun f => f.2.isNone)).map (fun f => f.1) := by
  intro files
  induction files with
  | nil => intro processed newFiles acc; simp
  | cons f rest ih =>
    intro processed newFiles acc
    obtain ⟨name, c⟩ := f
    cases c with
    | none =>
      simp only [List.foldl_cons, List.filter_cons]
      rw [ih]
      simp
    | some s =>
      simp only [List.foldl_cons, List.filter_cons]
      rw [ih]
      simp

theorem pass1_table (m : Str) (allFiles : List LogFile) (processed : List Str)
    (newFiles : List LogFile) (hc : ∀ f ∈ allFiles, f.1 ∈ processed ∨ f ∈ newFiles) :
    dget 0 m (pass1 allFiles processed newFiles).1 =
      (allFiles.map (fun f => msgTotal f m)).sum := by
  unfold pass1
  rw [pass1_fold m processed newFiles allFiles ([], []) hc]
  simp [dget]

theorem pass1_warns (allFiles : List LogFile) (processed : List Str)
    (newFiles : List LogFile) :
    (pass1 allFiles processed newFiles).2 =
      (allFiles.filter (fun f => f.2.isNone)).map (fun f => f.1) := by
  unfold pass1
  rw [pass1_warns_fold allFiles processed newFiles ([], [])]
  rfl

theorem pass1_cond (files : List LogFile) (processed : List Str) :
    ∀ f ∈ sortFiles files, f.1 ∈ processed ∨ f ∈ newFilesOf files processed := by
  intro f hf
  by_cases h : f.1 ∈ processed
  · exact Or.inl h
  · right
    unfold newFilesOf
    exact List.mem_filter.mpr ⟨hf, by simp [h]⟩

/-! ## Library lemmas: sorting the file list, sums over filters -/

theorem insFile_perm (x : LogFile) (l : List LogFile) : (insFile x l).Perm (x :: l) := by
  induction l with
  | nil => exact List.Perm.refl _
  | cons y ys ih =>
    by_cases h : strLt x.1 y.1
    · simp [insFile, h]
    · simp only [insFile, if_neg h]
      exact (List.Perm.cons y ih).trans (List.Perm.swap x y ys)

theorem sortFiles_perm (l : List LogFile) : (sortFiles l).Perm l := by
  induction l with
  | nil => exact List.Perm.refl _
  | cons x xs ih =>
    exact (insFile_perm x (sortFiles xs)).trans (List.Perm.cons x ih)

theorem sum_map_filter {α : Type} (p : α → Bool) (g : α → Int) (l : List α) :
    ((l.filter p).map g).sum = (l.map (fun x => if p x = true then g x else 0)).sum := by
  induction l with
  | nil => simp
  | cons x t ih =>
    rw [List.filter_cons]
    by_cases h : p x = true <;> simp [h, ih]

theorem sum_map_perm {α : Type} {l l' : List α} (h : l.Perm l') (g : α → Int) :
    (l.map g).sum = (l'.map g).sum :=
  (h.map g).sum_eq

/-! ## Library lemmas: key-distinctness invariant of the table -/

theorem foldl_preserve {α β : Type} (P : α → Prop) (f : α → β → α)
    (h : ∀ a b, P a → P (f a b)) : ∀ (l : List β) (a : α), P a → P (l.foldl f a) := by
  intro l
  induction l with
  | nil => intro a ha; exact ha
  | cons x t ih => intro a ha; exact ih (f a x) (h a x ha)

theorem mem_keys_dupd {α : Type} (dflt : α) (k x : Str) (f : α → α) :
    ∀ t : Dict α, x ∈ (dupd dflt k f t).map (fun p => p.1) →
      x = k ∨ x ∈ t.map (fun p => p.1) := by
  intro t
  induction t with
  | nil =>
    intro h
    rw [dupd] at h
    simp only [List.map_cons, List.map_nil] at h
    rcases List.mem_cons.mp h with he | he
    · exact Or.inl he
    · exact absurd he (List.not_mem_nil x)
  | cons e rest ih =>
    obtain ⟨k₁, v⟩ := e
    by_cases h₁ : k₁ = k
    · rw [dupd, if_pos h₁]
      intro h
      simp only [List.map_cons] at h ⊢
      exact Or.inr h
    · rw [dupd, if_neg h₁]
      intro h
      simp only [List.map_cons] at h ⊢
      rcases List.mem_cons.mp h with he | hm
      · exact Or.inr (by rw [he]; exact List.mem_cons_self _ _)
      · rcases ih hm with he | hm2
        · exact Or.inl he
        · exact Or.inr (List.mem_cons_of_mem _ hm2)

theorem nodup_keys_dupd {α : Type} (dflt : α) (k : Str) (f : α → α) :
    ∀ t : Dict α, (t.map (fun p => p.1)).Nodup → ((dupd dflt k f t).map (fun p => p.1)).Nodup := by
  intro t
  induction t with
  | nil => intro _; simp [dupd]
  | cons e rest ih =>
    obtain ⟨k₁, v⟩ := e
    intro hnd
    simp only [List.map_cons, List.nodup_cons] at hnd
    by_cases h₁ : k₁ = k
    · rw [dupd, if_pos h₁]
      simp only [List.map_cons, List.nodup_cons]
      exact hnd
    · rw [dupd, if_neg h₁]
      simp only [List.map_cons, List.nodup_cons]
      refine ⟨fun hm => ?_, ih hnd.2⟩
      rcases mem_keys_dupd dflt k k₁ f rest hm with he | hm2
      · exact h₁ he
      · exact hnd.1 hm2

theorem nodup_keys_foldLevelEntry (s : Summary) (tbl : ByMinute) (e : Str × Dict Int)
    (h : (tbl.map (fun p => p.1)).Nodup) :
    ((foldLevelEntry s tbl e).map (fun p => p.1)).Nodup := by
  unfold foldLevelEntry
  apply foldl_preserve (fun (t : ByMinute) => (t.map (fun p => p.1)).Nodup)
  · intro a b ha
    exact nodup_keys_dupd _ _ _ _ ha
  · exact nodup_keys_dupd _ _ _ _ (nodup_keys_dupd _ _ _ _ (nodup_keys_dupd _ _ _ _ h))

theorem nodup_keys_foldMsgEntry (tbl : ByMinute) (e : Str × List (Str × Int))
    (h : (tbl.map (fun p => p.1)).Nodup) :
    ((foldMsgEntry tbl e).map (fun p => p.1)).Nodup := by
  unfold foldMsgEntry
  apply foldl_preserve (fun (t : ByMinute) => (t.map (fun p => p.1)).Nodup)
  · intro a b ha
    exact nodup_keys_dupd _ _ _ _ ha
  · exact h

theorem nodup_keys_pass2File (st : Pass2St) (f : LogFile)
    (h : (st.tbl.map (fun p => p.1)).Nodup) :
    ((pass2File st f).tbl.map (fun p => p.1)).Nodup := by
  obtain ⟨name, c⟩ := f
  cases c with
  | none => exact h
  | some s =>
    simp only [pass2File]
    apply foldl_preserve (fun (t : ByMinute) => (t.map (fun p => p.1)).Nodup)
    · intro a b ha
      exact nodup_keys_foldMsgEntry a b ha
    · apply foldl_preserve (fun (t : ByMinute) => (t.map (fun p => p.1)).Nodup)
      · intro a b ha
        exact nodup_keys_foldLevelEntry s a b ha
      · exact h

theorem nodup_keys_pass2 (files : List LogFile) (tbl : ByMinute) (proc : List Str)
    (h : (tbl.map (fun p => p.1)).Nodup) :
    ((pass2 files tbl proc).tbl.map (fun p => p.1)).Nodup := by
  unfold pass2
  apply foldl_preserve (fun (st : Pass2St) => (st.tbl.map (fun p => p.1)).Nodup)
  · intro a b ha
    exact nodup_keys_pass2File a b ha
  · exact h

/-! ## Library lemmas: unfolding one run -/

theorem newFilesOf_nil_processed (files : List LogFile) :
    newFilesOf files [] = sortFiles files := by
  unfold newFilesOf
  apply List.filter_eq_self.mpr
  intro a _
  simp

theorem sortFiles_eq_nil {l : List LogFile} (h : sortFiles l = []) : l = [] :=
  ((sortFiles_perm l).symm.trans (h ▸ List.Perm.refl _)).eq_nil

theorem aggregate_noop (d : Dir) (now : Str)
    (h : newFilesOf d.files (load_state d.state).processed_files = []) :
    aggregate_logs d true now = ⟨true, d, []⟩ := by
  unfold aggregate_logs
  simp [h]

theorem aggregate_main (d : Dir) (now : Str)
    (h : newFilesOf d.files (load_state d.state).processed_files ≠ []) :
    aggregate_logs d true now =
      ⟨true,
        { d with
          csv := some (write_csv (pass2
            (newFilesOf d.files (load_state d.state).processed_files)
            (initialTable d true) (load_state d.state).processed_files).tbl)
          report := some (write_summary now
            (pass2 (newFilesOf d.files (load_state d.state).processed_files)
              (initialTable d true) (load_state d.state).processed_files).tbl
            (pass1 (sortFiles d.files) (load_state d.state).processed_files
              (newFilesOf d.files (load_state d.state).processed_files)).1
            (newFilesOf d.files (load_state d.state).processed_files).length)
          state := some ⟨sortStr (dedupStr (pass2
            (newFilesOf d.files (load_state d.state).processed_files)
            (initialTable d true) (load_state d.state).processed_files).processed),
            some now⟩ },
        (pass1 (sortFiles d.files) (load_state d.state).processed_files
          (newFilesOf d.files (load_state d.state).processed_files)).2 ++
          (pass2 (newFilesOf d.files (load_state d.state).processed_files)
            (initialTable d true) (load_state d.state).processed_files).warns⟩ := by
  unfold aggregate_logs
  simp only [if_true, if_neg h, initialTable]

/-! ## More run-level helpers -/

theorem aggregate_ok_of_new (d : Dir) (incremental : Bool) (now : Str)
    (h : newFilesOf d.files
        (if incremental then load_state d.state else ⟨[], none⟩).processed_files ≠ []) :
    (aggregate_logs d incremental now).ok = true := by
  unfold aggregate_logs
  simp [h]

theorem aggregate_full_empty (d : Dir) (now : Str) (h : d.files = []) :
    aggregate_logs d false now = ⟨false, d, []⟩ := by
  unfold aggregate_logs
  simp [h, newFilesOf, sortFiles]

theorem aggregate_full_ok (d : Dir) (now : Str) (h : d.files ≠ []) :
    (aggregate_logs d false now).ok = true := by
  apply aggregate_ok_of_new
  simp only [if_neg (Bool.false_ne_true)]
  rw [newFilesOf_nil_processed]
  intro hs
  exact h (sortFiles_eq_nil hs)

theorem aggregate_incremental_ok (d : Dir) (now : Str) :
    (aggregate_logs d true now).ok = true := by
  by_cases h : newFilesOf d.files (load_state d.state).processed_files = []
  · rw [aggregate_noop d now h]
  · rw [aggregate_main d now h]

/-! ## Claim C4 -/

/-- C4 counterexample: with `--full` on an existing directory containing zero
JSON files, `aggregate_logs` reports failure to its caller, although the
directory exists — contradicting "under every other input, including a
directory containing zero JSON files, it reports success". -/
theorem c4_counterexample :
    (aggregate_logs ⟨[], none, none, none⟩ false "t".toList).ok = false := by
  decide

/-- C4 (amended): the non-watch invocation reports failure to its caller
exactly when the target directory does not exist, or when running with
`--full` (non-incremental) on a directory containing zero JSON files; in
every other case it reports success.  (`__main__` discards this value, so
the process exit code is 0 regardless.) -/
theorem c4_amended (d : Option Dir) (incremental : Bool) (now : Str) :
    (aggregateLogsTop d incremental now).ok = false ↔
      d = none ∨ ∃ dd, d = some dd ∧ incremental = false ∧ dd.files = [] := by
  cases d with
  | none => simp [aggregateLogsTop]
  | some dd =>
    simp only [aggregateLogsTop]
    cases incremental with
    | true =>
      rw [aggregate_incremental_ok dd now]
      simp
    | false =>
      by_cases hf : dd.files = []
      · rw [aggregate_full_empty dd now hf]
        simp [hf]
      · rw [aggregate_full_ok dd now hf]
        simp [hf]

/-! ## Claim C2 -/

/-- C2 counterexample: `Path.glob("*.json")` also matches the dotted state
file written by run 1, so the real second run finds it as a new file and is
not a no-op — the rewritten report's "new files processed" count becomes 1,
not 0, and the state file's recorded set grows by `.aggregate_state.json`,
so the state file is not byte-identical up to the claim's two exceptions. -/
theorem c2_counterexample :
    (c2run2.dir.report.getD dummyReport).newFiles = 1 ∧
    (load_state c2run2.dir.state).processed_files ≠
      (load_state c1run1.dir.state).processed_files := by
  decide

/-- C2 (amended): the glob matches `.aggregate_state.json`, so the second
run after a first incremental run is not a no-op — it picks the state file
up as a new file (it parses, with every field defaulted, and contributes
nothing), succeeds, rewrites the CSV byte-identically, rewrites the report
with a refreshed timestamp and a "new files processed" count of 1, and
records the state file as processed.  An incremental run all of whose
globbed files are already recorded — the third and later runs — is a
complete no-op: success, CSV, report and state byte-identical, timestamp
not refreshed, count unchanged. -/
theorem c2_amended :
    (∀ (d : Dir) (now : Str),
      (∀ f ∈ d.files, f.1 ∈ (load_state d.state).processed_files) →
      aggregate_logs d true now = ⟨true, d, []⟩) ∧
    c2run2.ok = true ∧
    c2run2.dir.csv = c1run1.dir.csv ∧
    (c2run2.dir.report.getD dummyReport).generated = "B".toList ∧
    (c2run2.dir.report.getD dummyReport).newFiles = 1 ∧
    c2run2.dir.state =
      some ⟨[".aggregate_state.json".toList, "f1.json".toList], some "B".toList⟩ := by
  refine ⟨?_, by decide, by decide, by decide, by decide, by decide⟩
  intro d now h
  apply aggregate_noop
  unfold newFilesOf
  apply List.filter_eq_nil_iff.mpr
  intro f hf
  simp [h f ((sortFiles_perm d.files).mem_iff.mp hf)]

/-- Witness for C2: the third run, with both globbed names recorded, is a
complete no-op. -/
theorem c2_amended_witness :
    aggregate_logs c2dir3 true "C".toList = ⟨true, c2dir3, []⟩ :=
  c2_amended.1 c2dir3 ("C".toList) (by decide)

/-! ## Claim C5 -/

/-- C5: aggregating a directory containing only `f1.json` (meta 100/2, one
minute with 5 infos and 1 error, message "started job"×5) succeeds, writes
the CSV row `2025-11-05T07:50,1,100,5,0,1,0`, and lists "started job" with
count 5 in the report's top-messages table. -/
theorem c5_concrete_scenario :
    (aggregate_logs exDir1 true "G".toList).ok = true ∧
    "2025-11-05T07:50,1,100,5,0,1,0".toList ∈
      ((aggregate_logs exDir1 true "G".toList).dir.csv.getD []) ∧
    ((5 : Int), "started job".toList) ∈
      ((aggregate_logs exDir1 true "G".toList).dir.report.getD dummyReport).topMessages := by
  decide

/-! ## Claim C7 -/

/-- C7: a directory with one well-formed file and one invalid-JSON file
yields a successful run; only the well-formed file is recorded in
`processed_files` (the bad file stays eligible); a warning names the bad
file; and the CSV and top-messages table equal those of a run on the
well-formed file alone. -/
theorem c7_parse_failure_tolerance :
    (aggregate_logs ⟨[exF1, exBad], none, none, none⟩ true "G".toList).ok = true ∧
    (aggregate_logs ⟨[exF1, exBad], none, none, none⟩ true "G".toList).dir.state =
      some ⟨["f1.json".toList], some "G".toList⟩ ∧
    "bad.json".toList ∈ (aggregate_logs ⟨[exF1, exBad], none, none, none⟩ true "G".toList).warns ∧
    (aggregate_logs ⟨[exF1, exBad], none, none, none⟩ true "G".toList).dir.csv =
      (aggregate_logs exDir1 true "G".toList).dir.csv ∧
    ((aggregate_logs ⟨[exF1, exBad], none, none, none⟩ true "G".toList).dir.report.getD
        dummyReport).topMessages =
      ((aggregate_logs exDir1 true "G".toList).dir.report.getD dummyReport).topMessages := by
  decide

/-! ## Claim C10 -/

/-- C10 counterexample: a file whose `level_counts` holds two distinct
timestamps inside the same minute contributes twice to that minute's bucket:
`samples` ends at 2 and `total_lines` at 200 (twice the file's 100), not the
once-per-distinct-minute 1 and 100 the claim states. -/
theorem c10_counterexample :
    (dget emptyBucket "2025-11-05T07:50".toList (pass2 [exDup] [] []).tbl).samples = 2 ∧
    (dget emptyBucket "2025-11-05T07:50".toList (pass2 [exDup] [] []).tbl).total_lines = 200 := by
  decide

theorem sum_total_inner_levels (mk : Str) (lvls : List (Str × Int)) :
    ∀ tbl : ByMinute,
      ((lvls.foldl (fun t p => dupd emptyBucket mk (fun b =>
          { b with level_counts := dupd 0 p.1 (· + p.2) b.level_counts }) t) tbl).map
        (fun p => p.2.total_lines)).sum = (tbl.map (fun p => p.2.total_lines)).sum := by
  induction lvls with
  | nil => intro tbl; rfl
  | cons p rest ih =>
    intro tbl
    simp only [List.foldl_cons]
    rw [ih, sum_map_dupd _ _ _ _ _ 0 (fun v => by simp) (by rfl)]
    ring

theorem sum_total_inner_msgs (mk : Str) (msgs : List (Str × Int)) :
    ∀ tbl : ByMinute,
      ((msgs.foldl (fun t p => dupd emptyBucket mk (fun b =>
          { b with message_counts := dupd 0 p.1 (· + p.2) b.message_counts }) t) tbl).map
        (fun p => p.2.total_lines)).sum = (tbl.map (fun p => p.2.total_lines)).sum := by
  induction msgs with
  | nil => intro tbl; rfl
  | cons p rest ih =>
    intro tbl
    simp only [List.foldl_cons]
    rw [ih, sum_map_dupd _ _ _ _ _ 0 (fun v => by simp) (by rfl)]
    ring

theorem sum_total_foldLevelEntry (s : Summary) (tbl : ByMinute) (e : Str × Dict Int) :
    ((foldLevelEntry s tbl e).map (fun p => p.2.total_lines)).sum =
      (tbl.map (fun p => p.2.total_lines)).sum + s.total_lines := by
  unfold foldLevelEntry
  rw [sum_total_inner_levels,
    sum_map_dupd _ _ _ _ _ 0 (fun v => by simp) (by rfl),
    sum_map_dupd _ _ _ _ _ s.total_lines (fun v => by simp) (by rfl),
    sum_map_dupd _ _ _ _ _ 0 (fun v => by simp) (by rfl)]
  ring

theorem sum_total_foldMsgEntry (tbl : ByMinute) (e : Str × List (Str × Int)) :
    ((foldMsgEntry tbl e).map (fun p => p.2.total_lines)).sum =
      (tbl.map (fun p => p.2.total_lines)).sum := by
  unfold foldMsgEntry
  exact sum_total_inner_msgs (e.1.take 16) e.2 tbl

theorem sum_total_msg_entries (es : List (Str × List (Str × Int))) :
    ∀ tbl : ByMinute,
      ((es.foldl foldMsgEntry tbl).map (fun p => p.2.total_lines)).sum =
        (tbl.map (fun p => p.2.total_lines)).sum := by
  induction es with
  | nil => intro tbl; rfl
  | cons e rest ih =>
    intro tbl
    simp only [List.foldl_cons]
    rw [ih, sum_total_foldMsgEntry]

theorem sum_total_entries (s : Summary) (entries : List (Str × Dict Int)) :
    ∀ tbl : ByMinute,
      ((entries.foldl (foldLevelEntry s) tbl).map (fun p => p.2.total_lines)).sum =
        (tbl.map (fun p => p.2.total_lines)).sum + (entries.length : Int) * s.total_lines := by
  induction entries with
  | nil => intro tbl; simp
  | cons e rest ih =>
    intro tbl
    simp only [List.foldl_cons]
    rw [ih, sum_total_foldLevelEntry]
    simp only [List.length_cons]
    push_cast
    ring

/-- C10 (amended): a successfully processed new file adds its
`meta.total_lines` and `meta.failed_to_parse` in full once per entry
(timestamp key) of its `level_counts` map to the bucket of that entry's
truncated minute, and bumps `samples` by one per entry — so two timestamps
inside one minute contribute twice.  A file whose `level_counts` has `k`
entries adds `k` times its `total_lines` to the report's total-lines sum,
and a file with empty `level_counts` adds nothing to any bucket's numeric
columns while still being marked processed. -/
theorem c10_amended (name : Str) (s : Summary) (st : Pass2St) :
    (∀ k : Str,
      (dget emptyBucket k (pass2File st (name, some s)).tbl).samples =
        (dget emptyBucket k st.tbl).samples + (cntEntries s k : Int) ∧
      (dget emptyBucket k (pass2File st (name, some s)).tbl).total_lines =
        (dget emptyBucket k st.tbl).total_lines + (cntEntries s k : Int) * s.total_lines ∧
      (dget emptyBucket k (pass2File st (name, some s)).tbl).failed_to_parse =
        (dget emptyBucket k st.tbl).failed_to_parse +
          (cntEntries s k : Int) * s.failed_to_parse) ∧
    (∀ (now : Str) (am : Dict Int) (nc : Nat),
      (write_summary now (pass2File st (name, some s)).tbl am nc).totalLines =
        (write_summary now st.tbl am nc).totalLines +
          (s.level_counts.length : Int) * s.total_lines) ∧
    name ∈ (pass2File st (name, some s)).processed := by
  refine ⟨fun k => ⟨?_, ?_, ?_⟩, fun now am nc => ?_, ?_⟩
  · rw [samples_pass2File]
    rfl
  · rw [total_pass2File]
    rfl
  · rw [failed_pass2File]
    rfl
  · simp only [write_summary, pass2File]
    rw [sum_total_msg_entries, sum_total_entries]
  · simp [pass2File, mem_sadd]

/-! ## Claim C9 -/

theorem recorded_mono_one (d : Dir) (inc : Bool) (now : Str) (x : Str)
    (hx : x ∈ recordedSet d) : x ∈ recordedSet (aggregate_logs d inc now).dir := by
  cases inc with
  | false =>
    unfold aggregate_logs
    simp only [Bool.false_eq_true, if_false]
    split
    · exact hx
    · exact hx
  | true =>
    by_cases h : newFilesOf d.files (load_state d.state).processed_files = []
    · rw [aggregate_noop d now h]
      exact hx
    · rw [aggregate_main d now h]
      simp only [recordedSet, load_state]
      rw [(sortStr_perm _).mem_iff, mem_dedupStr]
      unfold pass2
      rw [processed_pass2_mem]
      exact Or.inl hx

/-- C9: across every sequence of runs (each finding an arbitrary new set of
JSON files and running in either mode), the `processed_files` set recorded
in the state file only grows: a filename present before any run is still
present after all of them. -/
theorem c9_processed_monotone (steps : List RunIn) (d : Dir) (x : Str)
    (hx : x ∈ recordedSet d) : x ∈ recordedSet (applyRuns d steps) := by
  induction steps generalizing d with
  | nil => exact hx
  | cons r rs ih =>
    show x ∈ recordedSet (applyRuns (applyRun d r) rs)
    apply ih
    exact recorded_mono_one { d with files := r.files } r.incremental r.now x hx

/-- Witness for C9: a name recorded before two concrete runs survives both. -/
theorem c9_witness :
    "x.json".toList ∈ recordedSet (applyRuns
      ⟨[], none, none, some ⟨["x.json".toList], none⟩⟩
      [⟨[exF1], true, "A".toList⟩, ⟨[exF1, exB], true, "B".toList⟩]) :=
  c9_processed_monotone _ _ _ (by decide)

/-! ## Claim C6 -/

/-- C6: pass 1 covers the full file set.  In every run the global message
table folds the message counts of every JSON file present in the directory
(previously processed files included, each contributing `msgTotal`); the
files whose read fails contribute nothing beyond a logged warning naming
them; and whenever there is at least one new file the run still reports
success. -/
theorem c6_pass1_covers_all (d : Dir) (incremental : Bool) (m : Str) :
    dget 0 m (pass1 (sortFiles d.files)
        (if incremental then load_state d.state else ⟨[], none⟩).processed_files
        (newFilesOf d.files
          (if incremental then load_state d.state else ⟨[], none⟩).processed_files)).1 =
      (d.files.map (fun f => msgTotal f m)).sum ∧
    (pass1 (sortFiles d.files)
        (if incremental then load_state d.state else ⟨[], none⟩).processed_files
        (newFilesOf d.files
          (if incremental then load_state d.state else ⟨[], none⟩).processed_files)).2 =
      ((sortFiles d.files).filter (fun f => f.2.isNone)).map (fun f => f.1) ∧
    (∀ now : Str,
      newFilesOf d.files
          (if incremental then load_state d.state else ⟨[], none⟩).processed_files ≠ [] →
        (aggregate_logs d incremental now).ok = true) := by
  refine ⟨?_, pass1_warns _ _ _, fun now h => aggregate_ok_of_new d incremental now h⟩
  rw [pass1_table m (sortFiles d.files) _ _ (pass1_cond d.files _)]
  exact sum_map_perm (sortFiles_perm d.files) _

/-- Witness for C6: the mixed good/bad directory run reports success. -/
theorem c6_witness :
    (aggregate_logs ⟨[exF1, exBad], none, none, none⟩ true "W".toList).ok = true :=
  (c6_pass1_covers_all ⟨[exF1, exBad], none, none, none⟩ true []).2.2 ("W".toList) (by decide)

/-! ## Claim C3 -/

/-- C3 counterexample: a MinuteBucket table whose minute key contains a comma
does not round-trip: the written row splits into 8 fields whose second field
`"b"` is not an integer, `int()` raises, and the loader keeps the partial
(empty) table — the written `samples` value 1 comes back as 0. -/
theorem c3_counterexample :
    (dget emptyBucket "a,b".toList (load_existing_data (write_csv exCommaTbl))).samples = 0 ∧
    (dget emptyBucket "a,b".toList exCommaTbl).samples = 1 := by
  decide

/-- C3 (amended): for every MinuteBucket table (a dict, so with distinct
minute keys) whose keys survive the CSV format — no comma (field
separator), no newline or carriage return (line structure), and no leading
whitespace (stripped by the reader) — writing the table and loading the
result reproduces `samples`, `total_lines` and the four persisted level
counts (info/warn/error/debug) at every minute key; `failed_to_parse` and
message counts are not persisted and do not round-trip. -/
theorem c3_round_trip (tbl : ByMinute) (hnd : (tbl.map (fun p => p.1)).Nodup)
    (hcl : ∀ k ∈ tbl.map (fun p => p.1), CleanKey k) (k : Str) :
    (dget emptyBucket k (load_existing_data (write_csv tbl))).samples =
        (dget emptyBucket k tbl).samples ∧
    (dget emptyBucket k (load_existing_data (write_csv tbl))).total_lines =
        (dget emptyBucket k tbl).total_lines ∧
    pLvl infoK (dget emptyBucket k (load_existing_data (write_csv tbl))) =
        pLvl infoK (dget emptyBucket k tbl) ∧
    pLvl warnK (dget emptyBucket k (load_existing_data (write_csv tbl))) =
        pLvl warnK (dget emptyBucket k tbl) ∧
    pLvl errorK (dget emptyBucket k (load_existing_data (write_csv tbl))) =
        pLvl errorK (dget emptyBucket k tbl) ∧
    pLvl debugK (dget emptyBucket k (load_existing_data (write_csv tbl))) =
        pLvl debugK (dget emptyBucket k tbl) :=
  load_write_csv tbl hnd hcl k

/-- Witness for C3: the round trip on the table aggregated from `f1.json`. -/
theorem c3_round_trip_witness :
    (dget emptyBucket "2025-11-05T07:50".toList
        (load_existing_data (write_csv (pass2 [exF1] [] []).tbl))).samples =
      (dget emptyBucket "2025-11-05T07:50".toList (pass2 [exF1] [] []).tbl).samples :=
  (c3_round_trip (pass2 [exF1] [] []).tbl (by decide) (by decide) _).1

/-! ## Claim C8: lemmas about the critical-pattern section -/

theorem mem_dupd_cases {α : Type} (dflt : α) (k : Str) (f : α → α) :
    ∀ (t : Dict α) (e : Str × α), e ∈ dupd dflt k f t →
      e ∈ t ∨ (e.1 = k ∧ (e.2 = f dflt ∨ ∃ v, (k, v) ∈ t ∧ e.2 = f v)) := by
  intro t
  induction t with
  | nil =>
    intro e he
    rw [dupd] at he
    rcases List.mem_cons.mp he with he | he
    · subst he
      exact Or.inr ⟨rfl, Or.inl rfl⟩
    · exact absurd he (List.not_mem_nil e)
  | cons q rest ih =>
    obtain ⟨k₁, v⟩ := q
    intro e he
    by_cases h₁ : k₁ = k
    · rw [dupd, if_pos h₁] at he
      rcases List.mem_cons.mp he with he | he
      · subst he
        exact Or.inr ⟨h₁, Or.inr ⟨v, by rw [← h₁]; exact List.mem_cons_self _ _, rfl⟩⟩
      · exact Or.inl (List.mem_cons_of_mem _ he)
    · rw [dupd, if_neg h₁] at he
      rcases List.mem_cons.mp he with he | he
      · exact Or.inl (he ▸ List.mem_cons_self _ _)
      · rcases ih e he with hm | ⟨hk, hv⟩
        · exact Or.inl (List.mem_cons_of_mem _ hm)
        · refine Or.inr ⟨hk, ?_⟩
          rcases hv with hv | ⟨w, hw, hwv⟩
          · exact Or.inl hv
          · exact Or.inr ⟨w, List.mem_cons_of_mem _ hw, hwv⟩

/-- Every entry the critical-pattern loop builds holds a keyword from the
fixed list and only messages of `all_messages` that match it
case-insensitively as a substring. -/
theorem buildCritical_entries (am : Dict Int) :
    ∀ e ∈ buildCriticalFound am, e.1 ∈ critical_keywords ∧
      ∀ p ∈ e.2, p ∈ am ∧ containsStr (lowerStr e.1) (lowerStr p.1) = true := by
  have hinner : ∀ (kw : Str), kw ∈ critical_keywords →
      ∀ (l : List (Str × Int)), (∀ p ∈ l, p ∈ am) →
      ∀ acc, (∀ e ∈ acc, e.1 ∈ critical_keywords ∧
          ∀ p ∈ e.2, p ∈ am ∧ containsStr (lowerStr e.1) (lowerStr p.1) = true) →
        ∀ e ∈ l.foldl (critAdd kw) acc, e.1 ∈ critical_keywords ∧
          ∀ p ∈ e.2, p ∈ am ∧ containsStr (lowerStr e.1) (lowerStr p.1) = true := by
    intro kw hkw l
    induction l with
    | nil => intro _ acc hacc; exact hacc
    | cons q rest ihl =>
      intro hl acc hacc
      simp only [List.foldl_cons]
      apply ihl (fun p hp => hl p (List.mem_cons_of_mem _ hp))
      intro e he
      unfold critAdd at he
      by_cases hm : containsStr (lowerStr kw) (lowerStr q.1) = true
      · rw [if_pos hm] at he
        rcases mem_dupd_cases [] kw _ acc e he with hin | ⟨hek, hv⟩
        · exact hacc e hin
        · refine ⟨hek ▸ hkw, ?_⟩
          rcases hv with hv | ⟨w, hw, hwv⟩
          · intro p hp
            rw [hv] at hp
            simp only [List.nil_append, List.mem_singleton] at hp
            subst hp
            exact ⟨hl p (List.mem_cons_self _ _), hek ▸ hm⟩
          · intro p hp
            rw [hwv] at hp
            rcases List.mem_append.mp hp with hp | hp
            · have := (hacc (kw, w) hw).2 p hp
              exact ⟨this.1, hek ▸ this.2⟩
            · simp only [List.mem_singleton] at hp
              subst hp
              exact ⟨hl p (List.mem_cons_self _ _), hek ▸ hm⟩
      · rw [if_neg hm] at he
        exact hacc e he
  have houter : ∀ (kws : List Str), (∀ kw ∈ kws, kw ∈ critical_keywords) →
      ∀ acc, (∀ e ∈ acc, e.1 ∈ critical_keywords ∧
          ∀ p ∈ e.2, p ∈ am ∧ containsStr (lowerStr e.1) (lowerStr p.1) = true) →
        ∀ e ∈ kws.foldl (fun acc kw => am.foldl (critAdd kw) acc) acc,
          e.1 ∈ critical_keywords ∧
          ∀ p ∈ e.2, p ∈ am ∧ containsStr (lowerStr e.1) (lowerStr p.1) = true := by
    intro kws
    induction kws with
    | nil => intro _ acc hacc; exact hacc
    | cons kw rest ihk =>
      intro hks acc hacc
      simp only [List.foldl_cons]
      apply ihk (fun x hx => hks x (List.mem_cons_of_mem _ hx))
      exact hinner kw (hks kw (List.mem_cons_self _ _)) am (fun p hp => hp) acc hacc
  exact houter critical_keywords (fun kw h => h) [] (by intro e he; exact absurd he (List.not_mem_nil e))

theorem dupd_append_keeps {k₀ : Str} {p : Str × Int} {acc : Dict (List (Str × Int))}
    (h : ∃ fs, (k₀, fs) ∈ acc ∧ p ∈ fs) (k : Str) (q : Str × Int) :
    ∃ fs, (k₀, fs) ∈ dupd [] k (fun l => l ++ [q]) acc ∧ p ∈ fs := by
  obtain ⟨fs, hmem, hp⟩ := h
  induction acc with
  | nil => exact absurd hmem (List.not_mem_nil _)
  | cons e rest ih =>
    obtain ⟨k₁, v⟩ := e
    by_cases h₁ : k₁ = k
    · rw [dupd, if_pos h₁]
      rcases List.mem_cons.mp hmem with he | hm
      · have hk : k₁ = k₀ := congrArg Prod.fst he.symm
        have hv : v = fs := congrArg Prod.snd he.symm
        exact ⟨v ++ [q], by rw [hk] at *; exact List.mem_cons_self _ _,
          List.mem_append.mpr (Or.inl (hv ▸ hp))⟩
      · exact ⟨fs, List.mem_cons_of_mem _ hm, hp⟩
    · rw [dupd, if_neg h₁]
      rcases List.mem_cons.mp hmem with he | hm
      · exact ⟨fs, he ▸ List.mem_cons_self _ _, hp⟩
      · obtain ⟨fs', hmem', hp'⟩ := ih hm
        exact ⟨fs', List.mem_cons_of_mem _ hmem', hp'⟩

theorem critAdd_keeps {k₀ : Str} {p : Str × Int} {acc : Dict (List (Str × Int))}
    (h : ∃ fs, (k₀, fs) ∈ acc ∧ p ∈ fs) (kw : Str) (q : Str × Int) :
    ∃ fs, (k₀, fs) ∈ critAdd kw acc q ∧ p ∈ fs := by
  unfold critAdd
  by_cases hm : containsStr (lowerStr kw) (lowerStr q.1) = true
  · rw [if_pos hm]
    exact dupd_append_keeps h kw q
  · rw [if_neg hm]
    exact h

theorem inner_keeps {k₀ : Str} {p : Str × Int} (kw : Str) (l : List (Str × Int)) :
    ∀ acc, (∃ fs, (k₀, fs) ∈ acc ∧ p ∈ fs) →
      ∃ fs, (k₀, fs) ∈ l.foldl (critAdd kw) acc ∧ p ∈ fs :=
  fun acc h => foldl_preserve (fun a => ∃ fs, (k₀, fs) ∈ a ∧ p ∈ fs) (critAdd kw)
    (fun a b ha => critAdd_keeps ha kw b) l acc h

theorem outer_keeps {k₀ : Str} {p : Str × Int} (am : Dict Int) (kws : List Str) :
    ∀ acc, (∃ fs, (k₀, fs) ∈ acc ∧ p ∈ fs) →
      ∃ fs, (k₀, fs) ∈ kws.foldl (fun acc kw => am.foldl (critAdd kw) acc) acc ∧ p ∈ fs :=
  fun acc h => foldl_preserve (fun a => ∃ fs, (k₀, fs) ∈ a ∧ p ∈ fs)
    (fun acc kw => am.foldl (critAdd kw) acc)
    (fun a kw ha => inner_keeps kw am a ha) kws acc h

theorem dupd_append_self (k : Str) (q : Str × Int) :
    ∀ acc : Dict (List (Str × Int)),
      ∃ fs, (k, fs) ∈ dupd [] k (fun l => l ++ [q]) acc ∧ q ∈ fs := by
  intro acc
  induction acc with
  | nil => exact ⟨[q], List.mem_cons_self _ _, List.mem_cons_self _ _⟩
  | cons e rest ih =>
    obtain ⟨k₁, v⟩ := e
    by_cases h₁ : k₁ = k
    · rw [dupd, if_pos h₁]
      exact ⟨v ++ [q], h₁ ▸ List.mem_cons_self _ _,
        List.mem_append.mpr (Or.inr (List.mem_cons_self _ _))⟩
    · rw [dupd, if_neg h₁]
      obtain ⟨fs, hmem, hq⟩ := ih
      exact ⟨fs, List.mem_cons_of_mem _ hmem, hq⟩

theorem inner_reach (kw : Str) (p : Str × Int)
    (hm : containsStr (lowerStr kw) (lowerStr p.1) = true) :
    ∀ (l : List (Str × Int)) (acc : Dict (List (Str × Int))), p ∈ l →
      ∃ fs, (kw, fs) ∈ l.foldl (critAdd kw) acc ∧ p ∈ fs := by
  intro l
  induction l with
  | nil => intro acc hp; exact absurd hp (List.not_mem_nil p)
  | cons q rest ih =>
    intro acc hp
    rcases List.mem_cons.mp hp with he | hmem
    · subst he
      simp only [List.foldl_cons]
      apply inner_keeps
      unfold critAdd
      rw [if_pos hm]
      exact dupd_append_self kw p acc
    · simp only [List.foldl_cons]
      exact ih (critAdd kw acc q) hmem

theorem buildCritical_exists (am : Dict Int) (kw : Str) (hkw : kw ∈ critical_keywords)
    (p : Str × Int) (hp : p ∈ am)
    (hm : containsStr (lowerStr kw) (lowerStr p.1) = true) :
    ∃ fs, (kw, fs) ∈ buildCriticalFound am ∧ p ∈ fs := by
  unfold buildCriticalFound
  have hreach : ∀ (kws : List Str) (acc : Dict (List (Str × Int))), kw ∈ kws →
      ∃ fs, (kw, fs) ∈ kws.foldl (fun acc kw => am.foldl (critAdd kw) acc) acc ∧ p ∈ fs := by
    intro kws
    induction kws with
    | nil => intro acc h; exact absurd h (List.not_mem_nil kw)
    | cons kw₁ rest ih =>
      intro acc h
      rcases List.mem_cons.mp h with he | hmem
      · subst he
        simp only [List.foldl_cons]
        apply outer_keeps
        exact inner_reach kw p hm am acc hp
      · simp only [List.foldl_cons]
        exact ih _ hmem
  exact hreach critical_keywords [] hkw

theorem buildCritical_empty (am : Dict Int)
    (h : ∀ kw ∈ critical_keywords, ∀ p ∈ am,
      containsStr (lowerStr kw) (lowerStr p.1) = false) :
    buildCriticalFound am = [] := by
  unfold buildCriticalFound
  have hinner : ∀ (kw : Str), kw ∈ critical_keywords →
      ∀ (l : List (Str × Int)), (∀ p ∈ l, p ∈ am) →
      ∀ acc, l.foldl (critAdd kw) acc = acc := by
    intro kw hkw l
    induction l with
    | nil => intro _ acc; rfl
    | cons q rest ih =>
      intro hl acc
      simp only [List.foldl_cons]
      have : critAdd kw acc q = acc := by
        unfold critAdd
        rw [if_neg]
        rw [h kw hkw q (hl q (List.mem_cons_self _ _))]
        simp
      rw [this]
      exact ih (fun p hp => hl p (List.mem_cons_of_mem _ hp)) acc
  have houter : ∀ (kws : List Str), (∀ kw ∈ kws, kw ∈ critical_keywords) →
      ∀ acc, kws.foldl (fun acc kw => am.foldl (critAdd kw) acc) acc = acc := by
    intro kws
    induction kws with
    | nil => intro _ acc; rfl
    | cons kw rest ih =>
      intro h902 acc
      simp only [List.foldl_cons]
      rw [hinner kw (h902 kw (List.mem_cons_self _ _)) am (fun p hp => hp) acc]
      exact ih (fun x hx => h902 x (List.mem_cons_of_mem _ hx)) acc
  exact houter critical_keywords (fun kw hk => hk) []

theorem insDesc_perm (x : Str × Int) (l : List (Str × Int)) : (insDesc x l).Perm (x :: l) := by
  induction l with
  | nil => exact List.Perm.refl _
  | cons y ys ih =>
    by_cases h : y.2 < x.2
    · rw [insDesc, if_pos h]
    · rw [insDesc, if_neg h]
      exact (List.Perm.cons y ih).trans (List.Perm.swap x y ys)

theorem sortDesc_fold_perm :
    ∀ (l acc : List (Str × Int)),
      (l.foldl (fun acc x => insDesc x acc) acc).Perm (acc ++ l) := by
  intro l
  induction l with
  | nil => intro acc; simp
  | cons x t ih =>
    intro acc
    simp only [List.foldl_cons]
    refine (ih (insDesc x acc)).trans ?_
    refine (((insDesc_perm x acc).append_right t).trans ?_)
    exact List.perm_middle.symm

theorem sortDescByCount_perm (l : List (Str × Int)) : (sortDescByCount l).Perm l := by
  unfold sortDescByCount
  simpa using sortDesc_fold_perm l []

theorem insDesc_sorted (x : Str × Int) {l : List (Str × Int)}
    (hl : l.Pairwise (fun a b => b.2 ≤ a.2)) :
    (insDesc x l).Pairwise (fun a b => b.2 ≤ a.2) := by
  induction l with
  | nil => simp [insDesc]
  | cons y ys ih =>
    obtain ⟨hy, hys⟩ := List.pairwise_cons.mp hl
    by_cases h : y.2 < x.2
    · rw [insDesc, if_pos h]
      refine List.pairwise_cons.mpr ⟨?_, hl⟩
      intro z hz
      rcases List.mem_cons.mp hz with he | hm
      · exact le_of_lt (he ▸ h)
      · exact le_trans (hy z hm) (le_of_lt h)
    · rw [insDesc, if_neg h]
      refine List.pairwise_cons.mpr ⟨?_, ih hys⟩
      intro z hz
      rcases List.mem_cons.mp ((insDesc_perm x ys).mem_iff.mp hz) with he | hm
      · exact he ▸ (not_lt.mp h)
      · exact hy z hm

theorem sortDescByCount_sorted (l : List (Str × Int)) :
    (sortDescByCount l).Pairwise (fun a b => b.2 ≤ a.2) := by
  unfold sortDescByCount
  apply foldl_preserve (fun acc : List (Str × Int) => acc.Pairwise (fun a b => b.2 ≤ a.2))
  · intro a b ha
    exact insDesc_sorted b ha
  · simp

/-- C8: critical patterns.  (1) Every entry of the `critical_found` table
pairs a keyword of the fixed list with messages of the global table that it
matches case-insensitively as a substring; (2) every such match is recorded;
(3) each emitted section holds at most 5 rows, drawn from a permutation-split
of the keyword's findings whose remainder has no higher count; (4) if no
keyword matches any message the section list is empty (the
no-critical-patterns marker is printed); (5) in particular a message
"Deployment failed unexpectedly" is grouped under the keyword `failed`. -/
theorem c8_critical_patterns (am : Dict Int) :
    (∀ e ∈ buildCriticalFound am, e.1 ∈ critical_keywords ∧
      ∀ p ∈ e.2, p ∈ am ∧ containsStr (lowerStr e.1) (lowerStr p.1) = true) ∧
    (∀ kw ∈ critical_keywords, ∀ p ∈ am,
      containsStr (lowerStr kw) (lowerStr p.1) = true →
      ∃ fs, (kw, fs) ∈ buildCriticalFound am ∧ p ∈ fs) ∧
    (∀ (now : Str) (tbl : ByMinute) (nc : Nat) (kw : Str) (sec : List (Int × Str)),
      (kw, sec) ∈ (write_summary now tbl am nc).criticalSections →
      sec.length ≤ 5 ∧
      ∃ fs rest, (kw, fs) ∈ buildCriticalFound am ∧
        fs.Perm (((sortDescByCount fs).take 5) ++ rest) ∧
        sec = ((sortDescByCount fs).take 5).map (fun p => (p.2, escapePipes (p.1.take 65))) ∧
        (∀ p ∈ (sortDescByCount fs).take 5, ∀ q ∈ rest, q.2 ≤ p.2)) ∧
    ((∀ kw ∈ critical_keywords, ∀ p ∈ am,
        containsStr (lowerStr kw) (lowerStr p.1) = false) →
      ∀ (now : Str) (tbl : ByMinute) (nc : Nat),
        (write_summary now tbl am nc).criticalSections = []) ∧
    (∀ c : Int, ("Deployment failed unexpectedly".toList, c) ∈ am →
      ∃ fs, ("failed".toList, fs) ∈ buildCriticalFound am ∧
        ("Deployment failed unexpectedly".toList, c) ∈ fs) := by
  refine ⟨buildCritical_entries am, fun kw hkw p hp hm => buildCritical_exists am kw hkw p hp hm,
    ?_, ?_, ?_⟩
  · intro now tbl nc kw sec hmem
    simp only [write_summary] at hmem
    obtain ⟨kf, hkf, heq⟩ := List.mem_map.mp hmem
    have hkw : kw = kf.1 := (congrArg Prod.fst heq).symm
    have hsec : sec = ((sortDescByCount kf.2).take 5).map
        (fun p => (p.2, escapePipes (p.1.take 65))) := (congrArg Prod.snd heq).symm
    constructor
    · rw [hsec, List.length_map]
      exact le_trans (List.length_take_le 5 _) (le_refl 5)
    · refine ⟨kf.2, (sortDescByCount kf.2).drop 5, ?_, ?_, hsec, ?_⟩
      · rw [hkw]
        exact hkf
      · rw [List.take_append_drop]
        exact (sortDescByCount_perm kf.2).symm
      · have hs := sortDescByCount_sorted kf.2
        rw [← List.take_append_drop 5 (sortDescByCount kf.2)] at hs
        exact (List.pairwise_append.mp hs).2.2
  · intro h now tbl nc
    simp only [write_summary]
    rw [buildCritical_empty am h]
    rfl
  · intro c hc
    have hm : containsStr (lowerStr "failed".toList)
        (lowerStr "Deployment failed unexpectedly".toList) = true := by decide
    exact buildCritical_exists am _ (by decide) _ hc hm

/-- Witness for C8: a table containing "Deployment failed unexpectedly" puts
that message under the `failed` keyword group. -/
theorem c8_witness :
    ∃ fs, ("failed".toList, fs) ∈
        buildCriticalFound [("Deployment failed unexpectedly".toList, 7)] ∧
      ("Deployment failed unexpectedly".toList, (7 : Int)) ∈ fs :=
  (c8_critical_patterns [("Deployment failed unexpectedly".toList, 7)]).2.2.2.2 7
    (by decide)

/-! ## Claim C1: incremental runs vs one-shot runs -/

theorem sum_map_eq_zero {α : Type} {g : α → Int} {l : List α} (h : ∀ x ∈ l, g x = 0) :
    (l.map g).sum = 0 := by
  induction l with
  | nil => simp
  | cons x t ih =>
    simp only [List.map_cons, List.sum_cons]
    rw [h x (List.mem_cons_self _ _), ih (fun y hy => h y (List.mem_cons_of_mem _ hy))]
    ring

theorem sum_map_congr {α : Type} {g₁ g₂ : α → Int} {l : List α}
    (h : ∀ x ∈ l, g₁ x = g₂ x) : (l.map g₁).sum = (l.map g₂).sum := by
  induction l with
  | nil => simp
  | cons x t ih =>
    simp only [List.map_cons, List.sum_cons]
    rw [h x (List.mem_cons_self _ _), ih (fun y hy => h y (List.mem_cons_of_mem _ hy))]

/-- Core of the incremental-correctness argument, generic in the projection
`π` and its per-file contribution `cπ`: folding the new files of the second
incremental run into the table reloaded from run 1's CSV agrees with folding
all files into an empty table, at every minute key where the reload is
faithful for `π`. -/
theorem c1_core (L1 L2 : List LogFile) (P : List Str) (loaded : ByMinute) (k : Str)
    (π : Bucket → Int) (cπ : LogFile → Str → Int)
    (hπe : π emptyBucket = 0)
    (hnone : ∀ (f : LogFile) (kk : Str), f.2 = none → cπ f kk = 0)
    (hfold : ∀ (files : List LogFile) (st : Pass2St) (kk : Str),
      π (dget emptyBucket kk (files.foldl pass2File st).tbl) =
        π (dget emptyBucket kk st.tbl) + (files.map (fun f => cπ f kk)).sum)
    (hround : π (dget emptyBucket k loaded) =
      π (dget emptyBucket k (pass2 (newFilesOf L1 []) [] []).tbl))
    (hP : ∀ x : Str, x ∈ P ↔ ∃ f ∈ L1, f.2 ≠ none ∧ f.1 = x)
    (hdisj : ∀ f ∈ L2, ∀ g ∈ L1, (g : LogFile).1 ≠ (f : LogFile).1) :
    π (dget emptyBucket k (pass2 (newFilesOf (L1 ++ L2) P) loaded P).tbl) =
      π (dget emptyBucket k (pass2 (newFilesOf (L1 ++ L2) []) [] []).tbl) := by
  have hT1 : π (dget emptyBucket k (pass2 (newFilesOf L1 []) [] []).tbl) =
      (L1.map (fun f => cπ f k)).sum := by
    unfold pass2
    rw [hfold]
    simp only [dget, hπe]
    rw [newFilesOf_nil_processed]
    rw [sum_map_perm (sortFiles_perm L1)]
    ring
  have hL1ite : ∀ f ∈ L1, (if (decide (f.1 ∉ P)) = true then cπ f k else 0) = 0 := by
    intro f hf
    cases hv : f.2 with
    | none =>
      split
      · exact hnone f k hv
      · rfl
    | some s =>
      have : f.1 ∈ P := (hP f.1).mpr ⟨f, hf, by rw [hv]; exact Option.noConfusion, rfl⟩
      simp [this]
  have hL2ite : ∀ f ∈ L2, (if (decide (f.1 ∉ P)) = true then cπ f k else 0) = cπ f k := by
    intro f hf
    have hnp : f.1 ∉ P := by
      intro hmem
      obtain ⟨g, hg, _, hge⟩ := (hP f.1).mp hmem
      exact hdisj f hf g hg hge
    simp [hnp]
  unfold pass2
  rw [hfold, hfold]
  simp only [dget, hπe]
  rw [hround, hT1]
  unfold newFilesOf
  rw [sum_map_filter, sum_map_perm (sortFiles_perm (L1 ++ L2))]
  rw [List.map_append, List.sum_append]
  rw [sum_map_eq_zero hL1ite, sum_map_congr hL2ite]
  have hfil : (sortFiles (L1 ++ L2)).filter (fun f => decide (f.1 ∉ ([] : List Str))) =
      sortFiles (L1 ++ L2) := List.filter_eq_self.mpr (fun a _ => by simp)
  rw [hfil, sum_map_perm (sortFiles_perm (L1 ++ L2)) (fun f => cπ f k),
    List.map_append, List.sum_append]
  ring

/-- The filenames recorded by run 1 are exactly the names of its readable
files. -/
theorem processed_run1_mem (L1 : List LogFile) (x : Str) :
    x ∈ sortStr (dedupStr (pass2 (newFilesOf L1 []) [] []).processed) ↔
      ∃ f ∈ L1, f.2 ≠ none ∧ f.1 = x := by
  rw [(sortStr_perm _).mem_iff, mem_dedupStr]
  unfold pass2
  rw [processed_pass2_mem, newFilesOf_nil_processed]
  constructor
  · rintro (h | ⟨f, hf, hv, he⟩)
    · exact absurd h (List.not_mem_nil x)
    · exact ⟨f, (sortFiles_perm L1).mem_iff.mp hf, hv, he⟩
  · rintro ⟨f, hf, hv, he⟩
    exact Or.inr ⟨f, (sortFiles_perm L1).mem_iff.mpr hf, hv, he⟩

set_option maxHeartbeats 1600000 in
theorem c1_world (L1 L2 : List LogFile) (now1 : Str) (k : Str)
    (π : Bucket → Int) (cπ : LogFile → Str → Int)
    (hπe : π emptyBucket = 0)
    (hnone : ∀ (f : LogFile) (kk : Str), f.2 = none → cπ f kk = 0)
    (hfold : ∀ (files : List LogFile) (st : Pass2St) (kk : Str),
      π (dget emptyBucket kk (files.foldl pass2File st).tbl) =
        π (dget emptyBucket kk st.tbl) + (files.map (fun f => cπ f kk)).sum)
    (hround : ∀ kk : Str,
      π (dget emptyBucket kk (load_existing_data (write_csv
          (pass2 (newFilesOf L1 []) [] []).tbl))) =
        π (dget emptyBucket kk (pass2 (newFilesOf L1 []) [] []).tbl))
    (hdisj : ∀ f ∈ L2, ∀ g ∈ L1, (g : LogFile).1 ≠ (f : LogFile).1) :
    π (dget emptyBucket k (pass2
        (newFilesOf (L1 ++ L2)
          (load_state (aggregate_logs ⟨L1, none, none, none⟩ true now1).dir.state).processed_files)
        (initialTable
          { (aggregate_logs ⟨L1, none, none, none⟩ true now1).dir with files := L1 ++ L2 } true)
        (load_state (aggregate_logs ⟨L1, none, none, none⟩ true now1).dir.state).processed_files).tbl) =
      π (dget emptyBucket k (pass2 (newFilesOf (L1 ++ L2) []) [] []).tbl) := by
  by_cases hL1 : L1 = []
  · subst hL1
    rw [aggregate_noop ⟨[], none, none, none⟩ now1 rfl]
    rfl
  · have hN1 : newFilesOf (⟨L1, none, none, none⟩ : Dir).files
        (load_state (⟨L1, none, none, none⟩ : Dir).state).processed_files ≠ [] := by
      show newFilesOf L1 [] ≠ []
      rw [newFilesOf_nil_processed]
      intro hs
      exact hL1 (sortFiles_eq_nil hs)
    rw [aggregate_main ⟨L1, none, none, none⟩ now1 hN1]
    show π (dget emptyBucket k (pass2
        (newFilesOf (L1 ++ L2) (sortStr (dedupStr (pass2 (newFilesOf L1 []) [] []).processed)))
        (load_existing_data (write_csv (pass2 (newFilesOf L1 []) [] []).tbl))
        (sortStr (dedupStr (pass2 (newFilesOf L1 []) [] []).processed))).tbl) =
      π (dget emptyBucket k (pass2 (newFilesOf (L1 ++ L2) []) [] []).tbl)
    exact c1_core L1 L2 _ _ k π cπ hπe hnone hfold (hround k)
      (processed_run1_mem L1) hdisj

/-- C1 (amended): aggregating `{A}` then `{A, B}` incrementally (reloading
the persisted CSV) produces the same `samples`, `total_lines`, and
info/warn/error/debug counts per minute key as aggregating `{A, B}` in a
single run from empty state — provided filenames are distinct and run 1's
minute keys survive the CSV format (no comma, no newline or carriage
return, no leading whitespace).  `failed_to_parse`, per-minute message
counts, and level names other than the four persisted ones are *not*
preserved across the CSV reload and are excluded. -/
theorem c1_amended (L1 L2 : List LogFile) (now1 : Str) (k : Str)
    (hnd : ((L1 ++ L2).map (fun f => f.1)).Nodup)
    (hclean : ∀ kk ∈ ((pass2 (newFilesOf L1 []) [] []).tbl).map (fun p => p.1),
      CleanKey kk) :
    rowView k (pass2
        (newFilesOf (L1 ++ L2)
          (load_state (aggregate_logs ⟨L1, none, none, none⟩ true now1).dir.state).processed_files)
        (initialTable
          { (aggregate_logs ⟨L1, none, none, none⟩ true now1).dir with files := L1 ++ L2 } true)
        (load_state (aggregate_logs ⟨L1, none, none, none⟩ true now1).dir.state).processed_files).tbl =
      rowView k (pass2 (newFilesOf (L1 ++ L2) []) [] []).tbl := by
  have hndT1 : ((pass2 (newFilesOf L1 []) [] []).tbl.map (fun p => p.1)).Nodup :=
    nodup_keys_pass2 _ _ _ (by simp)
  have h6 := fun kk => load_write_csv _ hndT1 hclean kk
  have hdisj : ∀ f ∈ L2, ∀ g ∈ L1, (g : LogFile).1 ≠ (f : LogFile).1 := by
    rw [List.map_append] at hnd
    rcases List.nodup_append.mp hnd with ⟨_, _, hdis⟩
    intro f hf g hg he
    exact hdis (List.mem_map_of_mem _ hg) (he ▸ List.mem_map_of_mem _ hf)
  have hnoneS : ∀ (f : LogFile) (kk : Str), f.2 = none → cSamples f kk = 0 := by
    intro f kk hv
    obtain ⟨n, c⟩ := f
    cases c with
    | none => rfl
    | some s => exact absurd hv (by simp)
  have hnoneT : ∀ (f : LogFile) (kk : Str), f.2 = none → cTotal f kk = 0 := by
    intro f kk hv
    obtain ⟨n, c⟩ := f
    cases c with
    | none => rfl
    | some s => exact absurd hv (by simp)
  have hnoneL : ∀ (lv : Str) (f : LogFile) (kk : Str), f.2 = none → cLvl f kk lv = 0 := by
    intro lv f kk hv
    obtain ⟨n, c⟩ := f
    cases c with
    | none => rfl
    | some s => exact absurd hv (by simp)
  simp only [rowView, RepRow.mk.injEq]
  refine ⟨trivial, ?_, ?_, ?_, ?_, ?_, ?_⟩
  · exact c1_world L1 L2 now1 k (fun b => b.samples) cSamples rfl hnoneS
      samples_pass2_fold (fun kk => (h6 kk).1) hdisj
  · exact c1_world L1 L2 now1 k (fun b => b.total_lines) cTotal rfl hnoneT
      total_pass2_fold (fun kk => (h6 kk).2.1) hdisj
  · exact c1_world L1 L2 now1 k (pLvl infoK) (fun f kk => cLvl f kk infoK) rfl
      (hnoneL infoK) (plvl_pass2_fold infoK) (fun kk => (h6 kk).2.2.1) hdisj
  · exact c1_world L1 L2 now1 k (pLvl warnK) (fun f kk => cLvl f kk warnK) rfl
      (hnoneL warnK) (plvl_pass2_fold warnK) (fun kk => (h6 kk).2.2.2.1) hdisj
  · exact c1_world L1 L2 now1 k (pLvl errorK) (fun f kk => cLvl f kk errorK) rfl
      (hnoneL errorK) (plvl_pass2_fold errorK) (fun kk => (h6 kk).2.2.2.2.1) hdisj
  · exact c1_world L1 L2 now1 k (pLvl debugK) (fun f kk => cLvl f kk debugK) rfl
      (hnoneL debugK) (plvl_pass2_fold debugK) (fun kk => (h6 kk).2.2.2.2.2) hdisj

/-- C1 counterexample: with `f1.json` (failed_to_parse 2) aggregated first
and `f2.json` (failed_to_parse 3) added, the incremental second run (whose
glob also picks up the state file, which contributes nothing) carries
`failed_to_parse = 3` for the shared minute (run 1's 2 was lost with the
CSV, which does not store that column), while the one-shot run carries 5 —
so the full MinuteBucket tables differ, as visible in the reports'
failed-to-parse totals. -/
theorem c1_counterexample :
    (c1run2.dir.report.getD dummyReport).totalFailed = 3 ∧
    (c1single.dir.report.getD dummyReport).totalFailed = 5 := by
  decide

/-- Witness for C1: the two-file scenario agrees on the persisted columns. -/
theorem c1_amended_witness :
    rowView "2025-11-05T07:50".toList (pass2
        (newFilesOf ([exF1] ++ [exB])
          (load_state (aggregate_logs ⟨[exF1], none, none, none⟩ true "A".toList).dir.state).processed_files)
        (initialTable
          { (aggregate_logs ⟨[exF1], none, none, none⟩ true "A".toList).dir with
              files := [exF1] ++ [exB] } true)
        (load_state (aggregate_logs ⟨[exF1], none, none, none⟩ true "A".toList).dir.state).processed_files).tbl =
      rowView "2025-11-05T07:50".toList (pass2 (newFilesOf ([exF1] ++ [exB]) []) [] []).tbl :=
  c1_amended [exF1] [exB] ("A".toList) ("2025-11-05T07:50".toList) (by decide) (by decide)
